import Mathlib

/-!
# Verification of the drive-sync marker/anchor pipeline

Shallow embedding, in Lean 4, of the pure core of the `drive_sync` Python
package: the slug encoder (`utils.py`), the heading indexer and anchor-link
converter (`gdocs.py`), the marker codec for mermaid diagrams and local
images (`converter.py`), the marker resolver (`gdocs.py` / `sync.py`), and
the embedding orchestrator (`sync.py`).

Conventions used throughout:

* Python strings are modelled as `String` / `List Char`; scanning functions
  that Python implements with `re.sub` / `re.finditer` are modelled as
  explicit left-to-right scanners over `List Char`, structurally recursive
  on a fuel argument so that every definition evaluates by kernel reduction
  (the public wrappers pass the input's `length` as fuel, which is always
  sufficient because every scanning step consumes at least one character).
* External collaborators (file system, `hashlib.md5`, `pathlib.resolve`,
  Google API clients) are modelled as explicit function parameters, so the
  embedded code is a function of those capabilities.
* Python `dict`s used as accumulators are modelled as insertion-ordered
  association lists with the same lookup/update/overwrite semantics.

The file is organised as: all definitions first, then all theorems.
-/

namespace DriveSync

/-! ## Decimal rendering of naturals

Models Python's `str(n)` / f-string interpolation of a non-negative `int`
(used by `get_unique_slug` for the `-1`, `-2`, … suffixes).  Defined with a
fuel argument (structural recursion) so that it reduces in the kernel; the
wrapper `natStr` passes `n + 1`, which is always enough fuel. -/

def digitCh (d : Nat) : Char :=
  match d with
  | 0 => '0' | 1 => '1' | 2 => '2' | 3 => '3' | 4 => '4'
  | 5 => '5' | 6 => '6' | 7 => '7' | 8 => '8' | _ => '9'

def natStrAux : Nat → Nat → List Char
  | 0, _ => []
  | fuel + 1, n => if n < 10 then [digitCh n] else natStrAux fuel (n / 10) ++ [digitCh (n % 10)]

/-- Decimal rendering of a natural number, as Python's `str` produces it. -/
def natStr (n : Nat) : String := ⟨natStrAux (n + 1) n⟩

/-- Value of a digit character (inverse of `digitCh` on digits). -/
def digitVal (c : Char) : Nat := c.toNat - 48

def parseAcc : Nat → List Char → Nat
  | acc, [] => acc
  | acc, c :: rest => parseAcc (acc * 10 + digitVal c) rest

/-! ## Character utilities shared by the embedding -/

/-- The characters Python's `str.strip()` removes (default whitespace).
Modelled from the Python stdlib; only the ASCII whitespace characters are
listed, which covers every string this development evaluates. -/
def pyWhitespace : List Char := [' ', '\t', '\n', '\r', '\x0b', '\x0c']

def isPySpace (c : Char) : Bool := pyWhitespace.contains c

def pyStripL (l : List Char) : List Char :=
  ((l.dropWhile isPySpace).reverse.dropWhile isPySpace).reverse

/-- Python's `str.strip()` with no arguments. -/
def pyStrip (s : String) : String := ⟨pyStripL s.data⟩

/-- ASCII lowercasing of one character.  Models Python's `str.lower()` on the
ASCII-only strings it is applied to in this code base (`slugify_heading`
lowercases only after all non-ASCII code points have been removed). -/
def asciiLower (c : Char) : Char :=
  if c.toNat ≥ 65 ∧ c.toNat ≤ 90 then Char.ofNat (c.toNat + 32) else c

def strLower (s : String) : String := ⟨s.data.map asciiLower⟩

/-- Modelled from the Python stdlib: the composite
`unicodedata.normalize('NFKD', text).encode('ascii', 'ignore').decode('ascii')`
step of `slugify_heading`.  ASCII code points map to themselves; accented
Latin letters decompose (NFKD) into their base ASCII letter followed by a
combining mark which the ASCII encode drops; all other non-ASCII code points
(emoji, CJK, symbols, stand-alone combining marks) are dropped entirely.  The
explicit table lists the accented letters exercised by this development and
by the repository's tests. -/
def nfkdAscii (c : Char) : List Char :=
  if c.toNat < 128 then [c]
  else if c = 'é' ∨ c = 'è' ∨ c = 'ê' ∨ c = 'ë' then ['e']
  else if c = 'á' ∨ c = 'à' ∨ c = 'â' ∨ c = 'ä' then ['a']
  else if c = 'ú' ∨ c = 'ù' ∨ c = 'û' ∨ c = 'ü' then ['u']
  else if c = 'í' ∨ c = 'ì' ∨ c = 'î' ∨ c = 'ï' then ['i']
  else if c = 'ó' ∨ c = 'ò' ∨ c = 'ô' ∨ c = 'ö' then ['o']
  else if c = 'ñ' then ['n']
  else if c = 'ç' then ['c']
  else if c = 'É' then ['E']
  else if c = 'Ü' then ['U']
  else []

/-- Characters kept by `re.sub(r'[^a-z0-9\-]', '', slug)`. -/
def isSlugChar (c : Char) : Bool :=
  (decide ('a' ≤ c) && decide (c ≤ 'z')) || (decide ('0' ≤ c) && decide (c ≤ '9')) || c == '-'

/-- Python's `str.strip('-')`. -/
def stripHyphens (l : List Char) : List Char :=
  ((l.dropWhile (· == '-')).reverse.dropWhile (· == '-')).reverse

/-! ## Slug encoder (`src/drive_sync/utils.py`) -/

/-- Embedding of `utils.slugify_heading`: empty/whitespace-only input returns
`""`; otherwise NFKD-normalize and drop non-ASCII, lowercase, replace each
space with a hyphen, delete every character that is not `[a-z0-9-]`, and
strip leading/trailing hyphens.  Hyphen runs are deliberately not
collapsed. -/
def slugify_heading (text : String) : String :=
  if text = "" ∨ pyStrip text = "" then ""
  else
    ⟨stripHyphens ((((text.data.flatMap nfkdAscii).map asciiLower).map
      (fun c => if c = ' ' then '-' else c)).filter isSlugChar)⟩

/-- Lookup in an insertion-ordered association list (the Python `dict`s
`seen_slugs`, `heading_levels`, `heading_map` are modelled this way). -/
def lookupA {β : Type} : List (String × β) → String → Option β
  | [], _ => none
  | (k, v) :: rest, key => if k = key then some v else lookupA rest key

/-- In-place value update for an existing key (Python `d[k] = v` when `k` is
already present keeps the key's insertion position). -/
def updateA {β : Type} : List (String × β) → String → β → List (String × β)
  | [], _, _ => []
  | (k, v) :: rest, key, val =>
    if k = key then (k, val) :: rest else (k, v) :: updateA rest key val

/-- Python `d[k] = v`: overwrite in place when present, append when new. -/
def upsertA {β : Type} : List (String × β) → String → β → List (String × β)
  | [], key, val => [(key, val)]
  | (k, v) :: rest, key, val =>
    if k = key then (k, val) :: rest else (k, v) :: upsertA rest key val

/-- Embedding of `utils.get_unique_slug`: first occurrence of `base_slug`
returns it unchanged and records count `0`; each later occurrence increments
the count and returns `base + "-" + count`.  The updated `seen_slugs` dict is
returned explicitly (Python mutates it in place). -/
def get_unique_slug (base_slug : String) (seen_slugs : List (String × Nat)) :
    String × List (String × Nat) :=
  match lookupA seen_slugs base_slug with
  | none => (base_slug, seen_slugs ++ [(base_slug, 0)])
  | some n => (base_slug ++ "-" ++ natStr (n + 1), updateA seen_slugs base_slug (n + 1))

/-- The slugs produced by threading `get_unique_slug` through a list of base
slugs in document order, starting from the given `seen_slugs` state (exactly
the thread `_parse_headings` performs). -/
def assignSlugs : List String → List (String × Nat) → List String
  | [], _ => []
  | b :: rest, seen =>
    (get_unique_slug b seen).1 :: assignSlugs rest (get_unique_slug b seen).2

/-- Specification-side closed form of one assigned slug: a base slug that has
already occurred `k` times before gets suffix `-k` (none for the first
occurrence). -/
def mkNumberedSlug (b : String) (k : Nat) : String :=
  if k = 0 then b else b ++ "-" ++ natStr k

/-- Specification-side closed form of the whole `get_unique_slug` thread:
each base slug is numbered by how often it occurred among the previously
processed base slugs. -/
def canonicalSlugs : List String → List String → List String
  | _, [] => []
  | p, b :: rest => mkNumberedSlug b (p.count b) :: canonicalSlugs (p ++ [b]) rest

/-- Relation between the `seen_slugs` dict and the list of already-processed
base slugs: the dict stores, for every base slug seen at least once, its
occurrence count minus one. -/
def SeenInv (seen : List (String × Nat)) (p : List String) : Prop :=
  ∀ b, lookupA seen b = if p.count b = 0 then none else some (p.count b - 1)

/-! ## Structured document model (Google Docs API `documents().get` result)

Models exactly the fields the embedded code reads: structural elements that
are paragraphs carry a paragraph style (`namedStyleType`, `headingId`) and a
list of elements; elements that are text runs carry the element's
`startIndex` (Python reads it with `.get('startIndex', 0)`, so a missing
index is modelled as `0`) and the run's `content` string. -/

inductive ParaElement where
  | textRun (startIndex : Nat) (content : String)
  | other
deriving DecidableEq, Repr

structure Paragraph where
  namedStyleType : Option String
  headingId : Option String
  elements : List ParaElement
deriving DecidableEq, Repr

inductive StructuralElement where
  | paragraph (p : Paragraph)
  | other
deriving DecidableEq, Repr

/-- A document body's `content` list. -/
abbrev Document := List StructuralElement

/-! ## Heading indexer (`GoogleDocsService._parse_headings`) -/

/-- The `heading_levels` dict of `_parse_headings`. -/
def headingLevels : List (String × Nat) :=
  [("HEADING_1", 1), ("HEADING_2", 2), ("HEADING_3", 3),
   ("HEADING_4", 4), ("HEADING_5", 5), ("HEADING_6", 6)]

structure HeadingEntry where
  text : String
  level : Nat
  heading_id : String
  index : Nat
deriving DecidableEq, Repr

/-- Concatenation of a paragraph's text-run contents. -/
def headingText : List ParaElement → String
  | [] => ""
  | .textRun _ c :: rest => c ++ headingText rest
  | .other :: rest => headingText rest

/-- `startIndex` of the paragraph's first text run (Python keeps the first
text run's index). -/
def headingStartIndex : List ParaElement → Option Nat
  | [] => none
  | .textRun si _ :: _ => some si
  | .other :: rest => headingStartIndex rest

/-- Loop body of `_parse_headings`, threading the `heading_map` dict and the
`seen_slugs` dict through the structural elements in document order. -/
def parseHeadingsGo : Document → List (String × HeadingEntry) → List (String × Nat) →
    List (String × HeadingEntry)
  | [], hm, _ => hm
  | .other :: rest, hm, seen => parseHeadingsGo rest hm seen
  | .paragraph p :: rest, hm, seen =>
    match p.namedStyleType with
    | none => parseHeadingsGo rest hm seen
    | some style =>
      match lookupA headingLevels style with
      | none => parseHeadingsGo rest hm seen
      | some level =>
        match p.headingId with
        | none => parseHeadingsGo rest hm seen
        | some hid =>
          let text := pyStrip (headingText p.elements)
          if text = "" then parseHeadingsGo rest hm seen
          else
            let base := slugify_heading text
            if base = "" then parseHeadingsGo rest hm seen
            else
              parseHeadingsGo rest
                (upsertA hm (get_unique_slug base seen).1
                  ⟨text, level, hid, (headingStartIndex p.elements).getD 0⟩)
                (get_unique_slug base seen).2

/-- Embedding of `GoogleDocsService._parse_headings`: walks the document,
and for each heading-styled paragraph that has a `headingId`, non-empty
stripped text and a non-empty base slug, stores a `HeadingEntry` in the
`heading_map` dict keyed by the disambiguated slug (a later equal key
overwrites the earlier entry, as Python dict assignment does). -/
def _parse_headings (document : Document) : List (String × HeadingEntry) :=
  parseHeadingsGo document [] []

/-- The base slugs of exactly the headings that `_parse_headings` indexes
(those passing its style/headingId/text/base-slug guards), in document
order.  Used to state which headings contribute a `get_unique_slug` call. -/
def headingBaseSlugs (document : Document) : List String :=
  document.flatMap fun el =>
    match el with
    | .other => []
    | .paragraph p =>
      match p.namedStyleType with
      | none => []
      | some style =>
        match lookupA headingLevels style with
        | none => []
        | some _ =>
          match p.headingId with
          | none => []
          | some _ =>
            let text := pyStrip (headingText p.elements)
            if text = "" then []
            else
              let base := slugify_heading text
              if base = "" then [] else [base]

/-- A heading paragraph with the given text and heading id. -/
def mkHeadingPara (text hid : String) : StructuralElement :=
  .paragraph ⟨some "HEADING_2", some hid, [.textRun 1 (text ++ "\n")]⟩

/-- Document with heading texts "A 1", "A", "A": the third heading's
disambiguated slug collides with the first heading's slug. -/
def headingCollisionDoc : Document :=
  [mkHeadingPara "A 1" "h.first", mkHeadingPara "A" "h.second", mkHeadingPara "A" "h.third"]

/-! ## Marker resolver (`GoogleDocsService.find_diagram_markers`,
`GoogleDriveSync._find_image_markers`)

Both Python functions run `re.finditer(r'\[KIND:(\w+)\]', text_content)` over
every text run of every paragraph, recording for each match the captured
name, the absolute index `startIndex + match.start()`, and
`len(match.group(0))`. -/

/-- Python's regex class `\w` for the marker-name pattern.  The names the
pipeline generates (`mermaid_<hex8>`, `image_<hex8>`) are ASCII word
characters; the model restricts `\w` to ASCII alphanumerics plus
underscore. -/
def isWordChar (c : Char) : Bool :=
  (decide ('a' ≤ c) && decide (c ≤ 'z')) || (decide ('A' ≤ c) && decide (c ≤ 'Z')) ||
  (decide ('0' ≤ c) && decide (c ≤ '9')) || c == '_'

/-- Strip a literal prefix, returning the rest of the input on success. -/
def stripPrefixL : List Char → List Char → Option (List Char)
  | [], l => some l
  | _ :: _, [] => none
  | p :: ps, c :: cs => if c = p then stripPrefixL ps cs else none

structure MarkerLoc where
  name : String
  index : Nat
  length : Nat
deriving DecidableEq, Repr

/-- The literal text of a `[KIND:name]` marker. -/
def markerText (kind name : List Char) : List Char :=
  '[' :: kind ++ ':' :: name ++ [']']

/-- After the word-character span: the next character must be the literal
`]` and the captured span `tw` must be non-empty (`\w+`). -/
def tryMarkerClose (tw : List Char) : List Char → Option (List Char × List Char)
  | c3 :: r4 => if c3 = ']' ∧ tw ≠ [] then some (tw, r4) else none
  | [] => none

/-- After the literal `KIND:`: capture the maximal word-character span as the
name, then require the closing `]`. -/
def tryMarkerTail (r2 : List Char) : Option (List Char × List Char) :=
  tryMarkerClose (r2.takeWhile isWordChar) (r2.dropWhile isWordChar)

/-- After the literal `[`: require the literal kind followed by `:`. -/
def tryMarkerAfterKind : Option (List Char) → Option (List Char × List Char)
  | some (c2 :: r2) => if c2 = ':' then tryMarkerTail r2 else none
  | _ => none

/-- Attempt to match the regex `\[KIND:(\w+)\]` at the head of `l`: a literal
`[`, the literal kind, a literal `:`, a non-empty maximal run of word
characters, and a literal `]`.  Returns the captured name and the rest of
the input after the match. -/
def tryMarker (kind : List Char) (l : List Char) : Option (List Char × List Char) :=
  match l with
  | c :: r1 => if c = '[' then tryMarkerAfterKind (stripPrefixL kind r1) else none
  | [] => none

/-- One `re.finditer` pass over a single text run's content: scan left to
right; at a match, record name, absolute index (`pos` + offset scanned) and
full matched length, then continue after the match; otherwise advance one
character.  Fuel-structural; every step consumes at least one character, so
fuel `= length` (as the callers pass) is always sufficient. -/
def scanRun (kind : List Char) : Nat → List Char → Nat → List MarkerLoc
  | 0, _, _ => []
  | _ + 1, [], _ => []
  | f + 1, c :: rest, pos =>
    match tryMarker kind (c :: rest) with
    | some (name, rest2) =>
      ⟨⟨name⟩, pos, kind.length + name.length + 3⟩ ::
        scanRun kind f rest2 (pos + (kind.length + name.length + 3))
    | none => scanRun kind f rest (pos + 1)

/-- The `(startIndex, content)` pairs of a document's text runs, in document
order (the nested `for element … for text_run …` loops). -/
def docRuns (document : Document) : List (Nat × String) :=
  document.flatMap fun el =>
    match el with
    | .paragraph p =>
      p.elements.flatMap fun pe =>
        match pe with
        | .textRun si content => [(si, content)]
        | .other => []
    | .other => []

/-- Generic marker resolver over a fetched document. -/
def findMarkers (kind : String) (document : Document) : List MarkerLoc :=
  (docRuns document).flatMap fun r => scanRun kind.data r.2.data.length r.2.data r.1

/-- Embedding of `GoogleDocsService.find_diagram_markers` (the document is
already fetched; the HTTP fetch and its error fallback are external). -/
def find_diagram_markers (document : Document) : List MarkerLoc :=
  findMarkers "DIAGRAM" document

/-- Embedding of `GoogleDriveSync._find_image_markers`. -/
def find_image_markers (document : Document) : List MarkerLoc :=
  findMarkers "IMAGE" document

/-- Spec-side description of one candidate position: the location the
resolver must record for position `i` of a run's content — some location
exactly when the regex `\[KIND:(\w+)\]` matches at `i` (`tryMarker` is
proven equivalent to that regex in `tryMarker_iff`, packaged with claim
C4), with absolute offset `pos + i` (run start plus in-run match offset)
and the full matched marker text's length. -/
def matchAt (kind l : List Char) (pos i : Nat) : Option MarkerLoc :=
  match tryMarker kind (l.drop i) with
  | some (name, _) => some ⟨⟨name⟩, pos + i, (markerText kind name).length⟩
  | none => none

/-- Spec-side enumeration of a run's matches: one location per matching
position, positions in increasing order. -/
def runMatches (kind l : List Char) (pos : Nat) : List MarkerLoc :=
  (List.range l.length).filterMap (matchAt kind l pos)

/-- Spec-side enumeration over the whole document: run by run in document
order. -/
def markerMatches (kind : String) (document : Document) : List MarkerLoc :=
  (docRuns document).flatMap fun r => runMatches kind.data r.2.data r.1

/-- Witness document for the resolver: two text runs, the first containing
two markers with the same name plus surrounding text, the second a third
marker. -/
def docMW : Document :=
  [StructuralElement.paragraph ⟨none, none,
    [ParaElement.textRun 1 "x[DIAGRAM:d_a1].[DIAGRAM:d_a1]y"]⟩,
   StructuralElement.paragraph ⟨none, none, [ParaElement.textRun 40 "[DIAGRAM:b2]"]⟩]

/-! ## Anchor link converter (`GoogleDocsService.convert_anchor_links`) -/

structure AnchorLink where
  anchor : String
  start_index : Nat
  end_index : Nat
  text : String
deriving DecidableEq, Repr

structure UpdateTextStyleRequest where
  startIndex : Nat
  endIndex : Nat
  headingId : String
deriving DecidableEq, Repr

/-- The `updateTextStyle` request the loop appends for a surviving link:
the link's exact range, with the hyperlink target set to the heading's
`headingId` (never the slug). -/
def mkLinkRequest (link : AnchorLink) (entry : HeadingEntry) : UpdateTextStyleRequest :=
  ⟨link.start_index, link.end_index, entry.heading_id⟩

/-- The `for link in sorted_links` loop: a link whose anchor is absent from
`heading_map` is skipped; otherwise one request is appended and
`converted_count` incremented.  Returns `(requests, converted_count)`. -/
def buildReqs (heading_map : List (String × HeadingEntry)) :
    List AnchorLink → List UpdateTextStyleRequest × Nat
  | [] => ([], 0)
  | link :: rest =>
    match lookupA heading_map link.anchor with
    | none => buildReqs heading_map rest
    | some entry =>
      (mkLinkRequest link entry :: (buildReqs heading_map rest).1,
        (buildReqs heading_map rest).2 + 1)

/-- `sorted(anchor_links, key=lambda x: x['start_index'], reverse=True)`:
Python's sort is stable, and a stable sort's output is uniquely determined
by the comparator, so the stable insertion sort is a faithful model. -/
def sortLinksDesc (anchor_links : List AnchorLink) : List AnchorLink :=
  List.insertionSort (fun a b => b.start_index ≤ a.start_index) anchor_links

/-- Embedding of `GoogleDocsService.convert_anchor_links`.  Returns
`(converted_count, batch)`: `batch = some requests` models the single
`documents().batchUpdate` call the Python code issues (with exactly that
request list, in order); `batch = none` models the early returns
(`if not anchor_links` / `if not requests`) that do not contact the
document store at all.  The `batchUpdate` HTTP failure path re-raises and is
external to this model. -/
def convert_anchor_links (heading_map : List (String × HeadingEntry))
    (anchor_links : List AnchorLink) : Nat × Option (List UpdateTextStyleRequest) :=
  if anchor_links = [] then (0, none)
  else
    if (buildReqs heading_map (sortLinksDesc anchor_links)).1 = [] then (0, none)
    else ((buildReqs heading_map (sortLinksDesc anchor_links)).2,
      some (buildReqs heading_map (sortLinksDesc anchor_links)).1)

/-- Heading map with the single heading of spec test property 10. -/
def anchorMapW : List (String × HeadingEntry) :=
  [("timeline--rollout-strategy", ⟨"Timeline & Rollout Strategy", 2, "h.def456", 50⟩)]

/-- One convertible link and one link to a nonexistent slug. -/
def anchorLinksW : List AnchorLink :=
  [⟨"timeline--rollout-strategy", 14, 41, "Timeline & Rollout Strategy"⟩,
   ⟨"nonexistent-slug", 60, 70, "dead link"⟩]

/-! ## Generic `re.sub` scanner

Python's `re.sub(pattern, repl, text)` scans left to right: at each position
it either matches (consuming the match, emitting `repl`'s output, and
continuing *after* the match — replacement text is never rescanned) or
advances one character.  `tryM` attempts a match at the head of the input,
returning the match data and the input after the match; `handler` is the
replacement callback, threading an accumulator state (the closure state the
Python callbacks mutate).  Fuel-structural; the wrapper `runSub` passes the
input's length as fuel, which is sufficient because every pattern used here
consumes at least one character per match. -/

def subScan {μ σ : Type} (tryM : List Char → Option (μ × List Char))
    (handler : σ → μ → List Char × σ) : Nat → List Char → σ → List Char × σ
  | 0, l, s => (l, s)
  | _ + 1, [], s => ([], s)
  | f + 1, c :: rest, s =>
    match tryM (c :: rest) with
    | some (m, rest2) =>
      ((handler s m).1 ++ (subScan tryM handler f rest2 (handler s m).2).1,
        (subScan tryM handler f rest2 (handler s m).2).2)
    | none =>
      (c :: (subScan tryM handler f rest s).1, (subScan tryM handler f rest s).2)

def runSub {μ σ : Type} (tryM : List Char → Option (μ × List Char))
    (handler : σ → μ → List Char × σ) (l : List Char) (s : σ) : List Char × σ :=
  subScan tryM handler l.length l s

/-! ## Mermaid diagram extraction (`MarkdownConverter.extract_mermaid_diagrams`)

`re.sub(r'```mermaid\n(.*?)```', replace_mermaid, md_content, flags=re.DOTALL)`:
each fenced mermaid block — the literal opening fence through the *nearest*
following triple backtick (non-greedy), fences included — is replaced by a
marker line; `replace_mermaid` strips the captured body, hashes it with
`hashlib.md5(...).hexdigest()[:8]` (modelled by the `md5hex8` parameter) and
appends a Diagram Reference. -/

structure DiagramRef where
  name : String
  code : String
  hash : String
deriving DecidableEq, Repr

/-- The backtick character (code point 96). -/
def backtick : Char := Char.ofNat 96

/-- The literal opening token of the pattern. -/
def mermaidOpen : List Char := "```mermaid\n".data

/-- A closing fence: three backticks. -/
def bt3 (rest : List Char) : List Char := backtick :: backtick :: backtick :: rest

/-- Does `l` start with three backticks? -/
def startsBT3 (l : List Char) : Bool := l.take 3 == "```".data

/-- The non-greedy `(.*?)` up to the closing fence: find the *first*
occurrence of three backticks, returning the body before it and the input
after it. -/
def findClose : List Char → Option (List Char × List Char)
  | [] => none
  | c :: rest =>
    if startsBT3 (c :: rest) then some ([], (c :: rest).drop 3)
    else (findClose rest).map fun p => (c :: p.1, p.2)

/-- Attempt to match `r'```mermaid\n(.*?)```'` (DOTALL) at the head. -/
def tryMermaid (l : List Char) : Option (List Char × List Char) :=
  match stripPrefixL mermaidOpen l with
  | some r1 => findClose r1
  | none => none

/-- The `replace_mermaid` callback: strip the captured body, hash it,
record the Diagram Reference and emit `"\n[DIAGRAM:mermaid_<hash>]\n"`.
(The Python closure also increments `diagram_counter`, which is never read;
it is omitted.) -/
def replace_mermaid (md5hex8 : String → String) (diagrams : List DiagramRef)
    (body : List Char) : List Char × List DiagramRef :=
  (("\n[DIAGRAM:" ++ ("mermaid_" ++ md5hex8 (pyStrip ⟨body⟩)) ++ "]\n").data,
    diagrams ++
      [⟨"mermaid_" ++ md5hex8 (pyStrip ⟨body⟩), pyStrip ⟨body⟩, md5hex8 (pyStrip ⟨body⟩)⟩])

/-- Embedding of `MarkdownConverter.extract_mermaid_diagrams`, parameterized
by the md5 digest (modelled abstractly, as the asset identity only needs the
digest as an opaque string function). -/
def extract_mermaid_diagrams (md5hex8 : String → String) (md_content : String) :
    String × List DiagramRef :=
  (⟨(runSub tryMermaid (replace_mermaid md5hex8) md_content.data []).1⟩,
    (runSub tryMermaid (replace_mermaid md5hex8) md_content.data []).2)

/-- A mermaid fenced block as written in markdown source. -/
def mermaidFence (body : String) : String := "```mermaid\n" ++ body ++ "```"

/-- The marker line the codec substitutes for one block. -/
def diagramMarker (name : String) : String := "\n[DIAGRAM:" ++ name ++ "]\n"

/-- The marker name derived from a block body. -/
def mermaidName (md5hex8 : String → String) (body : String) : String :=
  "mermaid_" ++ md5hex8 (pyStrip body)

/-- The Diagram Reference recorded for one block. -/
def mermaidEntry (md5hex8 : String → String) (body : String) : DiagramRef :=
  ⟨mermaidName md5hex8 body, pyStrip body, md5hex8 (pyStrip body)⟩

/-! ## Local image extraction (`MarkdownConverter.extract_local_images`)

Two `re.sub` passes over the markdown: pass 1 rewrites standard markdown
image references `![alt](path)` (`replace_md_image`), pass 2 rewrites
inline-code image references `` `file.png` `` (`replace_inline_image_ref`),
both replacing a successful match with an `[IMAGE:name]` marker and
accumulating `ImageRef` records in the shared `images` list. -/

structure ImageRef where
  name : String
  display_name : String
  path : String
  alt : String
deriving DecidableEq, Repr

/-- External collaborators of `extract_local_images`, modelled as function
parameters: `resolve` models `pathlib.Path.resolve()` applied to the joined
path string; `md5hex8` models `hashlib.md5(str(path).encode()).hexdigest()[:8]`;
`fsExists` models `Path.exists()`; `sourceDir` is `source_file.parent` as a
string. -/
structure ImgCtx where
  resolve : String → String
  md5hex8 : String → String
  fsExists : String → Bool
  sourceDir : String

/-- The recognized image suffixes, as the Python code lists them. -/
def imageDotExts : List String := [".png", ".jpg", ".jpeg", ".gif", ".webp"]

def startsWithStr (pre s : String) : Bool := pre.data.isPrefixOf s.data

/-- The final path component (text after the last `/`), `pathlib`'s `.name`. -/
def lastComponent (p : String) : String :=
  ⟨(p.data.reverse.takeWhile (fun c => c != '/')).reverse⟩

/-- Modelled from `pathlib`: `.parent` of a slash-separated path string —
the path with its final component and the separating `/` removed (covers the
paths this development evaluates). -/
def parentDir (p : String) : String :=
  ⟨((p.data.reverse.dropWhile (fun c => c != '/')).drop 1).reverse⟩

/-- Modelled from `pathlib`: `Path(p).suffix` — the final component from its
last dot; empty when there is no dot, when the dot is the component's first
character, or when it is the last character. -/
def pathSuffix (p : String) : String :=
  if ((lastComponent p).data.reverse.takeWhile (fun c => c != '.')).length =
      (lastComponent p).data.length then ""
  else
    if 0 < (lastComponent p).data.length -
        ((lastComponent p).data.reverse.takeWhile (fun c => c != '.')).length - 1 ∧
        (lastComponent p).data.length -
        ((lastComponent p).data.reverse.takeWhile (fun c => c != '.')).length - 1 <
        (lastComponent p).data.length - 1 then
      ⟨(lastComponent p).data.drop ((lastComponent p).data.length -
        ((lastComponent p).data.reverse.takeWhile (fun c => c != '.')).length - 1)⟩
    else ""

/-- Modelled from `pathlib`: `Path(p).stem` — the final component minus
`pathSuffix`. -/
def pathStem (p : String) : String :=
  ⟨(lastComponent p).data.take ((lastComponent p).data.length - (pathSuffix p).data.length)⟩

/-- Modelled from `pathlib`: `dir / p` — `p` itself when absolute, else the
slash-joined path. -/
def joinPath (dir p : String) : String :=
  if startsWithStr "/" p then p else dir ++ "/" ++ p

/-- Embedding of the `replace_md_image` callback (pass 1): skip network
URLs; resolve the path against the source directory; extract only when the
resolved file exists and carries a recognized image suffix (lowercased);
otherwise return the original matched text (`match.group(0)`) and leave the
accumulated list untouched. -/
def replace_md_image (ctx : ImgCtx) (images : List ImageRef) (alt path : String) :
    String × List ImageRef :=
  if startsWithStr "http://" path || startsWithStr "https://" path ||
      startsWithStr "//" path then
    ("![" ++ alt ++ "](" ++ path ++ ")", images)
  else
    if ctx.fsExists (ctx.resolve (joinPath ctx.sourceDir path)) &&
        imageDotExts.contains
          (strLower (pathSuffix (ctx.resolve (joinPath ctx.sourceDir path)))) then
      ("\n[IMAGE:" ++ ("image_" ++ ctx.md5hex8 (ctx.resolve (joinPath ctx.sourceDir path)))
          ++ "]\n",
        images ++ [⟨"image_" ++ ctx.md5hex8 (ctx.resolve (joinPath ctx.sourceDir path)),
          pathStem (ctx.resolve (joinPath ctx.sourceDir path)),
          ctx.resolve (joinPath ctx.sourceDir path), alt⟩])
    else
      ("![" ++ alt ++ "](" ++ path ++ ")", images)

/-- After the path span of `!\[([^\]]*)\]\(([^)]+)\)`: the next character
must be the literal `)` and the span non-empty. -/
def mdPathClose (alt path : List Char) : List Char → Option ((List Char × List Char) × List Char)
  | c :: r5 => if c = ')' ∧ path ≠ [] then some ((alt, path), r5) else none
  | [] => none

def mdPathSpan (alt r3 : List Char) : Option ((List Char × List Char) × List Char) :=
  mdPathClose alt (r3.takeWhile (fun c => c != ')')) (r3.dropWhile (fun c => c != ')'))

/-- After the alt span: the literal `](`. -/
def mdAfterAlt (alt : List Char) : List Char → Option ((List Char × List Char) × List Char)
  | c1 :: c2 :: r3 => if c1 = ']' ∧ c2 = '(' then mdPathSpan alt r3 else none
  | _ => none

/-- Attempt to match `!\[([^\]]*)\]\(([^)]+)\)` at the head of `l`:
literal `![`, a (possibly empty) alt span of non-`]` characters, literal
`](`, a non-empty path span of non-`)` characters, literal `)`. -/
def tryMdImage (l : List Char) : Option ((List Char × List Char) × List Char) :=
  match l with
  | c1 :: c2 :: r1 =>
    if c1 = '!' ∧ c2 = '[' then
      mdAfterAlt (r1.takeWhile (fun c => c != ']')) (r1.dropWhile (fun c => c != ']'))
    else none
  | _ => none

def mdImageHandler (ctx : ImgCtx) (images : List ImageRef) (m : List Char × List Char) :
    List Char × List ImageRef :=
  ((replace_md_image ctx images ⟨m.1⟩ ⟨m.2⟩).1.data, (replace_md_image ctx images ⟨m.1⟩ ⟨m.2⟩).2)

/-- The regex check of pass 2's pattern `` `([^`]+\.(?:png|jpg|jpeg|gif|webp))` ``
(IGNORECASE): the inline-code content must end, case-insensitively, in a dot
followed by a recognized extension, with at least one character before the
dot. -/
def innerHasImageExt (inner : List Char) : Bool :=
  imageDotExts.any (fun e =>
    e.data.isSuffixOf (inner.map asciiLower) && decide (e.data.length + 1 ≤ inner.length))

/-- After the inner span: the closing backtick, with the extension check. -/
def inlineClose (inner : List Char) : List Char → Option (List Char × List Char)
  | c :: r3 => if c = backtick ∧ innerHasImageExt inner then some (inner, r3) else none
  | [] => none

/-- Attempt to match pass 2's pattern at the head of `l`. -/
def tryInlineImage (l : List Char) : Option (List Char × List Char) :=
  match l with
  | c :: r1 =>
    if c = backtick then
      inlineClose (r1.takeWhile (fun ch => ch != backtick))
        (r1.dropWhile (fun ch => ch != backtick))
    else none
  | [] => none

/-- The fixed ordered candidate list of `replace_inline_image_ref`. -/
def searchPaths (ctx : ImgCtx) (filename : String) : List String :=
  [joinPath ctx.sourceDir filename,
   joinPath (joinPath ctx.sourceDir "screenshots") filename,
   joinPath (joinPath ctx.sourceDir "images") filename,
   joinPath (joinPath (parentDir ctx.sourceDir) "screenshots") filename,
   joinPath (joinPath (parentDir ctx.sourceDir) "images") filename,
   joinPath (joinPath (joinPath (parentDir ctx.sourceDir) "scope") "screenshots") filename]

/-- The `for search_path in search_paths` loop: first existing resolved
candidate wins. -/
def firstExisting (ctx : ImgCtx) : List String → Option String
  | [] => none
  | sp :: rest =>
    if ctx.fsExists (ctx.resolve sp) then some (ctx.resolve sp) else firstExisting ctx rest

/-- The found-file case of `replace_inline_image_ref`: if the resolved path
is already in the accumulated list, reuse the existing record's marker name
and append nothing (the `existing` check); otherwise append a new record. -/
def inlineFound (ctx : ImgCtx) (images : List ImageRef) (filename full_path : String) :
    String × List ImageRef :=
  match images.find? (fun img => img.path == full_path) with
  | some img0 => ("[IMAGE:" ++ img0.name ++ "]", images)
  | none =>
    ("[IMAGE:" ++ ("image_" ++ ctx.md5hex8 full_path) ++ "]",
      images ++ [⟨"image_" ++ ctx.md5hex8 full_path, pathStem full_path, full_path, filename⟩])

/-- Dispatch on the directory-search result: not found leaves the original
inline-code text. -/
def inlineSearch (ctx : ImgCtx) (images : List ImageRef) (inner filename : String) :
    Option String → String × List ImageRef
  | none => ("`" ++ inner ++ "`", images)
  | some full_path => inlineFound ctx images filename full_path

/-- Embedding of the `replace_inline_image_ref` callback (pass 2): strip the
inner text; ignore non-image filenames; search the candidate directories for
the first existing file; dedup against the accumulated list; if nothing is
found return the original text. -/
def replace_inline_image_ref (ctx : ImgCtx) (images : List ImageRef) (inner : String) :
    String × List ImageRef :=
  if ¬ (imageDotExts.any (fun e => e.data.isSuffixOf (strLower (pyStrip inner)).data)) then
    ("`" ++ inner ++ "`", images)
  else
    inlineSearch ctx images inner (pyStrip inner)
      (firstExisting ctx (searchPaths ctx (pyStrip inner)))

def inlineImageHandler (ctx : ImgCtx) (images : List ImageRef) (inner : List Char) :
    List Char × List ImageRef :=
  ((replace_inline_image_ref ctx images ⟨inner⟩).1.data,
    (replace_inline_image_ref ctx images ⟨inner⟩).2)

/-- Embedding of `MarkdownConverter.extract_local_images`: pass 1
(`replace_md_image` over the raw content with an empty accumulator), then
pass 2 (`replace_inline_image_ref` over pass 1's output, continuing with
pass 1's accumulator). -/
def extract_local_images (ctx : ImgCtx) (md_content : String) : String × List ImageRef :=
  (⟨(runSub tryInlineImage (inlineImageHandler ctx)
        (runSub tryMdImage (mdImageHandler ctx) md_content.data []).1
        (runSub tryMdImage (mdImageHandler ctx) md_content.data []).2).1⟩,
    (runSub tryInlineImage (inlineImageHandler ctx)
        (runSub tryMdImage (mdImageHandler ctx) md_content.data []).1
        (runSub tryMdImage (mdImageHandler ctx) md_content.data []).2).2)

/-- Context for the duplicate-record counterexample: identity resolution, a
constant digest, and a file system containing exactly `/d/p.png`. -/
def imgCtxC : ImgCtx := ⟨fun s => s, fun _ => "deadbeef", fun p => p == "/d/p.png", "/d"⟩

/-- Two markdown image references to the same resolved path. -/
def imgTextC : String := "![a](p.png) ![a](p.png)"

/-! ## Embedding orchestrator (`GoogleDriveSync._process_mermaid_diagrams`,
`GoogleDriveSync._process_local_images`, `GoogleDocsService.embed_diagram`)

Each pass iterates over the references from extraction in order; the whole
body of each iteration sits inside `try: … except …: logger.error(...)`, so
any render/store failure yields a logged outcome and the loop proceeds.
External collaborators (Mermaid renderer, Drive uploads, folder creation,
document fetch, `batchUpdate`) are modelled as oracle parameters returning
`Except String _`; an `Except.error` models the call raising.  Oracles are
keyed by the name of the asset being processed, so each per-asset call may
independently succeed or fail.  The `set_public_permissions` /
`add_service_account_reader` calls sit inside their own inner
`try/except` whose failure is only logged and affects nothing observable
here, so they are omitted.  The lazily created subfolder id
(`diagrams_folder_id` / `images_folder_id`) is threaded as an
`Option String`: in Python the variable is assigned only after
`get_or_create_folder` returns, so a later failure in the same iteration
still leaves the folder id set for subsequent iterations, while a failure
of the creation call itself leaves it `None`. -/

/-- One request of a `documents().batchUpdate` body. -/
inductive DocRequest where
  | deleteContentRange (startIndex endIndex : Nat)
  | insertInlineImage (index : Nat) (uri : String) (widthPt heightPt : Nat)
deriving DecidableEq, Repr

/-- Embedding of `GoogleDocsService.embed_diagram`'s request list: delete
the marker's exact range `[marker_index, marker_index + marker_length)`,
then insert an inline image at `marker_index` with the given point size.
The whole list is submitted in one `batchUpdate` call. -/
def embed_diagram_requests (image_url : String)
    (marker_index marker_length width_pt height_pt : Nat) : List DocRequest :=
  [DocRequest.deleteContentRange marker_index (marker_index + marker_length),
   DocRequest.insertInlineImage marker_index image_url width_pt height_pt]

/-- The recorded fate of one asset reference: `embedded` records the marker
used and the exact request batch submitted in the single successful
`batchUpdate` call; `markerNotFound` is the logged skip when re-resolution
finds no marker with the asset's name; `fileMissing` is the
`if not image_path.exists(): continue` skip of the image pass; `failed` is
the outer `except` catching a raising render/store call. -/
inductive AssetOutcome where
  | embedded (nm : String) (marker : MarkerLoc) (batch : List DocRequest)
  | markerNotFound (nm : String)
  | fileMissing (nm : String)
  | failed (nm : String) (msg : String)
deriving DecidableEq, Repr

def AssetOutcome.assetName : AssetOutcome → String
  | .embedded nm _ _ => nm
  | .markerNotFound nm => nm
  | .fileMissing nm => nm
  | .failed nm _ => nm

/-- External collaborators of `_process_mermaid_diagrams`.
`render_mode_local` is `MERMAID_RENDER_MODE == 'local'`; `mermaidUrl` is
`get_mermaid_url` (pure URL encoding); `render` is
`render_mermaid_diagram` (raises `MermaidAPIError`/`MermaidCLIError`);
`createFolder` is `get_or_create_folder("Diagram Images", folder_id)`,
keyed by the asset during which the attempt happens; `upload` is
`upload_image_bytes` (bytes, filename, folder id); `fetchDoc` is the
per-iteration document re-fetch; `batchUpdate` is the document-store
mutation call, recording the submitted request list. -/
structure MermaidCaps where
  render_mode_local : Bool
  mermaidUrl : String → String
  render : String → Except String String
  createFolder : String → Except String String
  upload : String → String → String → Except String String
  fetchDoc : String → Document
  batchUpdate : String → List DocRequest → Except String Unit

/-- Render-and-upload path of one diagram, after the folder id `fid` is
known: `render_mermaid_diagram`, then `upload_image_bytes`, then the Drive
view URL built from the uploaded file's id. -/
def diagramRenderUpload (caps : MermaidCaps) (fid : String) (d : DiagramRef) :
    Except String String :=
  match caps.render d.code with
  | .error e => .error e
  | .ok png =>
    match caps.upload png (d.name ++ ".png") fid with
    | .error e => .error e
    | .ok fileId => .ok ("https://drive.google.com/uc?export=view&id=" ++ fileId)

/-- The `use_drive_upload` branch: create the `"Diagram Images"` folder if
not yet created (a creation failure raises, leaving the folder id unset),
then render and upload.  Returns the resulting URL (or error) and the
folder state after the iteration. -/
def diagramDriveUpload (caps : MermaidCaps) (folder0 : Option String) (d : DiagramRef) :
    Except String String × Option String :=
  match folder0 with
  | some fid => (diagramRenderUpload caps fid d, some fid)
  | none =>
    match caps.createFolder d.name with
    | .error e => (.error e, none)
    | .ok fid => (diagramRenderUpload caps fid d, some fid)

/-- The render-mode dispatch of one diagram: `local` mode always uploads to
Drive; otherwise the direct `mermaid.ink` URL is used unless it exceeds the
2000-character limit, in which case the Drive upload path is taken. -/
def diagramResolveUrl (caps : MermaidCaps) (folder0 : Option String) (d : DiagramRef) :
    Except String String × Option String :=
  if caps.render_mode_local then diagramDriveUpload caps folder0 d
  else if 2000 < (caps.mermaidUrl d.code).length then diagramDriveUpload caps folder0 d
  else (.ok (caps.mermaidUrl d.code), folder0)

/-- Marker re-resolution and embedding for one asset: filter the freshly
resolved markers to those whose name equals the asset's name; if none, log
and skip; otherwise take the first and submit `embed_diagram`'s two-request
batch in one `batchUpdate` call (a raising call is caught by the outer
`except`).  `embedSubmit` is the submission once the marker is chosen. -/
def embedSubmit (bu : List DocRequest → Except String Unit) (nm url : String)
    (wpt hpt : Nat) (marker : MarkerLoc) : AssetOutcome :=
  match bu (embed_diagram_requests url marker.index marker.length wpt hpt) with
  | .ok _ => .embedded nm marker (embed_diagram_requests url marker.index marker.length wpt hpt)
  | .error e => .failed nm e

def embedAtMarker (bu : List DocRequest → Except String Unit) (ms : List MarkerLoc)
    (nm url : String) (wpt hpt : Nat) : AssetOutcome :=
  match (ms.filter (fun m => m.name == nm)).head? with
  | none => .markerNotFound nm
  | some marker => embedSubmit bu nm url wpt hpt marker

/-- Outcome of one diagram iteration given the URL-resolution result: a
raised render/store error is caught (`failed`); otherwise the document is
re-fetched, `find_diagram_markers` re-resolves the markers, and the first
marker named like the diagram receives the 500×350 embed. -/
def diagramOutcome (caps : MermaidCaps) (d : DiagramRef) : Except String String → AssetOutcome
  | .error e => .failed d.name e
  | .ok url =>
    embedAtMarker (caps.batchUpdate d.name) (find_diagram_markers (caps.fetchDoc d.name))
      d.name url 500 350

/-- One iteration of the `for diagram in diagrams` loop: outcome plus the
folder state handed to the next iteration. -/
def processOneDiagram (caps : MermaidCaps) (folder0 : Option String) (d : DiagramRef) :
    AssetOutcome × Option String :=
  (diagramOutcome caps d (diagramResolveUrl caps folder0 d).1,
    (diagramResolveUrl caps folder0 d).2)

/-- The `for diagram in diagrams` loop, threading the lazily created folder
id; one outcome per reference, in extraction order. -/
def processDiagramsGo (caps : MermaidCaps) : Option String → List DiagramRef → List AssetOutcome
  | _, [] => []
  | folder0, d :: rest =>
    (processOneDiagram caps folder0 d).1 ::
      processDiagramsGo caps (processOneDiagram caps folder0 d).2 rest

/-- Embedding of `GoogleDriveSync._process_mermaid_diagrams` (the folder id
starts out `None`). -/
def process_mermaid_diagrams (caps : MermaidCaps) (diagrams : List DiagramRef) :
    List AssetOutcome :=
  processDiagramsGo caps none diagrams

/-- External collaborators of `_process_local_images`: `fsExists` is
`Path.exists()`; `readFile` is the `open(...).read()` (raises on I/O
error); `createFolder` is `get_or_create_folder("Embedded Images",
folder_id)`; `upload` is `upload_image_bytes` (bytes, filename, folder id,
MIME type); `fetchDoc` and `batchUpdate` as for diagrams. -/
structure ImagesCaps where
  fsExists : String → Bool
  readFile : String → Except String String
  createFolder : String → Except String String
  upload : String → String → String → String → Except String String
  fetchDoc : String → Document
  batchUpdate : String → List DocRequest → Except String Unit

/-- The `mime_types` dict lookup with default `'image/png'`. -/
def mimeFromSuffix (suffix : String) : String :=
  if suffix = ".png" then "image/png"
  else if suffix = ".jpg" then "image/jpeg"
  else if suffix = ".jpeg" then "image/jpeg"
  else if suffix = ".gif" then "image/gif"
  else if suffix = ".webp" then "image/webp"
  else "image/png"

/-- Upload path of one image after the folder id `fid` is known: upload the
bytes under `display_name + suffix` with the MIME type derived from the
lowercased path suffix, then build the Drive view URL. -/
def imageUploadCall (caps : ImagesCaps) (fid : String) (img : ImageRef) (bytes : String) :
    Except String String :=
  match caps.upload bytes (img.display_name ++ strLower (pathSuffix img.path)) fid
      (mimeFromSuffix (strLower (pathSuffix img.path))) with
  | .error e => .error e
  | .ok fileId => .ok ("https://drive.google.com/uc?export=view&id=" ++ fileId)

/-- Lazy `"Embedded Images"` folder creation, then the upload. -/
def imageDriveUpload (caps : ImagesCaps) (folder0 : Option String) (img : ImageRef)
    (bytes : String) : Except String String × Option String :=
  match folder0 with
  | some fid => (imageUploadCall caps fid img bytes, some fid)
  | none =>
    match caps.createFolder img.name with
    | .error e => (.error e, none)
    | .ok fid => (imageUploadCall caps fid img bytes, some fid)

/-- Outcome of one image iteration given the upload result: a raised store
error is caught (`failed`); otherwise `_find_image_markers` re-resolves the
markers on the re-fetched document and the first marker named like the
image receives the 280×175 embed. -/
def imageOutcome (caps : ImagesCaps) (img : ImageRef) : Except String String → AssetOutcome
  | .error e => .failed img.name e
  | .ok url =>
    embedAtMarker (caps.batchUpdate img.name) (find_image_markers (caps.fetchDoc img.name))
      img.name url 280 175

/-- One iteration of the `for image in images` loop: a missing file is
logged and skipped (`continue`) before anything else; then read, upload,
and embed, with the folder state threaded as for diagrams. -/
def processOneImage (caps : ImagesCaps) (folder0 : Option String) (img : ImageRef) :
    AssetOutcome × Option String :=
  if ¬ caps.fsExists img.path then (.fileMissing img.name, folder0)
  else
    match caps.readFile img.path with
    | .error e => (.failed img.name e, folder0)
    | .ok bytes =>
      (imageOutcome caps img (imageDriveUpload caps folder0 img bytes).1,
        (imageDriveUpload caps folder0 img bytes).2)

/-- The `for image in images` loop. -/
def processImagesGo (caps : ImagesCaps) : Option String → List ImageRef → List AssetOutcome
  | _, [] => []
  | folder0, img :: rest =>
    (processOneImage caps folder0 img).1 ::
      processImagesGo caps (processOneImage caps folder0 img).2 rest

/-- Embedding of `GoogleDriveSync._process_local_images`. -/
def process_local_images (caps : ImagesCaps) (images : List ImageRef) : List AssetOutcome :=
  processImagesGo caps none images

/-- Witness document for the diagram pass: one text run holding the marker
`[DIAGRAM:mermaid_deadbeef]` at start index 5. -/
def docDW : Document :=
  [StructuralElement.paragraph
    ⟨some "NORMAL_TEXT", none, [ParaElement.textRun 5 "[DIAGRAM:mermaid_deadbeef]"]⟩]

/-- Witness document for the image pass: one text run holding the marker
`[IMAGE:image_deadbeef]` at start index 7. -/
def docIW : Document :=
  [StructuralElement.paragraph
    ⟨some "NORMAL_TEXT", none, [ParaElement.textRun 7 "[IMAGE:image_deadbeef]"]⟩]

/-- Witness diagram reference. -/
def diagramW : DiagramRef := ⟨"mermaid_deadbeef", "graph TD", "deadbeef"⟩

/-- Witness image reference. -/
def imageW : ImageRef := ⟨"image_deadbeef", "p", "/d/p.png", "p.png"⟩

/-- All-succeeding collaborators for the diagram pass, in local render
mode. -/
def mermaidCapsW : MermaidCaps :=
  ⟨true, fun _ => "", fun _ => .ok "png-bytes", fun _ => .ok "DF",
   fun _ _ _ => .ok "FID", fun _ => docDW, fun _ _ => .ok ()⟩

/-- All-succeeding collaborators for the image pass. -/
def imagesCapsW : ImagesCaps :=
  ⟨fun _ => true, fun _ => .ok "bytes", fun _ => .ok "IF",
   fun _ _ _ _ => .ok "FID2", fun _ => docIW, fun _ _ => .ok ()⟩

/-! # Theorems

All theorems of the development; claim theorems are marked with their claim
identifiers `C1` … `C10`. -/

/-! ## Decimal rendering -/

theorem digitVal_digitCh {d : Nat} (h : d < 10) : digitVal (digitCh d) = d := by
  match d, h with
  | 0, _ => decide
  | 1, _ => decide
  | 2, _ => decide
  | 3, _ => decide
  | 4, _ => decide
  | 5, _ => decide
  | 6, _ => decide
  | 7, _ => decide
  | 8, _ => decide
  | 9, _ => decide

theorem natStrAux_succ (f n : Nat) :
    natStrAux (f + 1) n =
      if n < 10 then [digitCh n] else natStrAux f (n / 10) ++ [digitCh (n % 10)] := rfl

theorem parseAcc_nil (acc : Nat) : parseAcc acc [] = acc := rfl

theorem parseAcc_cons (acc : Nat) (c : Char) (rest : List Char) :
    parseAcc acc (c :: rest) = parseAcc (acc * 10 + digitVal c) rest := rfl

theorem parseAcc_append (acc : Nat) (l₁ l₂ : List Char) :
    parseAcc acc (l₁ ++ l₂) = parseAcc (parseAcc acc l₁) l₂ := by
  induction l₁ generalizing acc with
  | nil => rfl
  | cons c rest ih => exact ih (acc * 10 + digitVal c)

theorem natStrAux_adequate :
    ∀ f₁ f₂ n, n < f₁ → n < f₂ → natStrAux f₁ n = natStrAux f₂ n := by
  intro f₁
  induction f₁ with
  | zero => intro f₂ n h; omega
  | succ f ih =>
    intro f₂ n h₁ h₂
    match f₂, h₂ with
    | f₂ + 1, _ =>
      by_cases hn : n < 10
      · rw [natStrAux_succ, natStrAux_succ, if_pos hn, if_pos hn]
      · have hrec : n / 10 < n := Nat.div_lt_self (by omega) (by omega)
        rw [natStrAux_succ, natStrAux_succ, if_neg hn, if_neg hn,
          ih f₂ (n / 10) (by omega) (by omega)]

theorem parseAcc_natStrAux :
    ∀ f n acc, n < f → parseAcc acc (natStrAux f n) = acc * 10 ^ (natStrAux f n).length + n := by
  intro f
  induction f with
  | zero => intro n acc h; omega
  | succ f ih =>
    intro n acc h
    by_cases hn : n < 10
    · rw [natStrAux_succ, if_pos hn, parseAcc_cons, parseAcc_nil, digitVal_digitCh hn]
      simp
    · have hlt : n / 10 < f := by
        have hdd : n / 10 < n := Nat.div_lt_self (by omega) (by omega)
        omega
      have hm : n % 10 < 10 := Nat.mod_lt _ (by omega)
      have key : ∀ L : Nat, (acc * 10 ^ L + n / 10) * 10 + n % 10 = acc * 10 ^ (L + 1) + n := by
        intro L
        have h2 := Nat.div_add_mod n 10
        calc (acc * 10 ^ L + n / 10) * 10 + n % 10
            = acc * (10 ^ L * 10) + (10 * (n / 10) + n % 10) := by ring
          _ = acc * 10 ^ (L + 1) + n := by rw [h2, pow_succ]
      rw [natStrAux_succ, if_neg hn, parseAcc_append, parseAcc_cons, parseAcc_nil,
        ih (n / 10) acc hlt, List.length_append, List.length_singleton, digitVal_digitCh hm]
      exact key _

theorem natStr_injective : Function.Injective natStr := by
  intro m n h
  have hdata : natStrAux (m + 1) m = natStrAux (n + 1) n := congrArg String.data h
  have hm := parseAcc_natStrAux (m + 1) m 0 (Nat.lt_succ_self m)
  have hn := parseAcc_natStrAux (n + 1) n 0 (Nat.lt_succ_self n)
  rw [hdata] at hm
  simp only [Nat.zero_mul, Nat.zero_add] at hm hn
  omega

theorem natStr_ne_empty (n : Nat) : natStr n ≠ "" := by
  intro h
  have hdata : natStrAux (n + 1) n = [] := congrArg String.data h
  by_cases hn : n < 10
  · rw [natStrAux_succ, if_pos hn] at hdata
    exact absurd hdata (by simp)
  · rw [natStrAux_succ, if_neg hn] at hdata
    exact absurd (List.append_eq_nil.mp hdata).2 (by simp)

theorem natStr_length_pos (n : Nat) : 0 < (natStr n).length := by
  rcases Nat.eq_zero_or_pos (natStr n).length with h | h
  · exact absurd (String.ext (List.length_eq_zero.mp h)) (natStr_ne_empty n)
  · exact h

/-! ## List helpers -/

theorem head?_dropWhile_pred_false {α : Type} (p : α → Bool) :
    ∀ (l : List α) {c : α}, (l.dropWhile p).head? = some c → p c = false := by
  intro l
  induction l with
  | nil => intro c h; simp at h
  | cons a t ih =>
    intro c h
    rw [List.dropWhile_cons] at h
    by_cases ha : p a = true
    · exact ih (by rwa [if_pos ha] at h)
    · rw [if_neg ha] at h
      simp only [List.head?_cons, Option.some.injEq] at h
      subst h
      exact eq_false_of_ne_true ha

theorem getLast?_dropWhile_of_ne_nil {α : Type} (p : α → Bool) (l : List α)
    (h : l.dropWhile p ≠ []) : (l.dropWhile p).getLast? = l.getLast? := by
  obtain ⟨t, ht⟩ := @List.dropWhile_suffix _ l p
  conv_rhs => rw [← ht]
  exact (List.getLast?_append_of_ne_nil t h).symm

theorem mem_stripHyphens {c : Char} {l : List Char} (h : c ∈ stripHyphens l) : c ∈ l := by
  unfold stripHyphens at h
  rw [List.mem_reverse] at h
  have h2 := ((List.dropWhile_suffix (· == '-')).sublist.subset) h
  rw [List.mem_reverse] at h2
  exact ((List.dropWhile_suffix (· == '-')).sublist.subset) h2

theorem head?_stripHyphens (l : List Char) : (stripHyphens l).head? ≠ some '-' := by
  unfold stripHyphens
  rw [List.head?_reverse]
  intro hcon
  have hne : (l.dropWhile (· == '-')).reverse.dropWhile (· == '-') ≠ [] := by
    intro hnil
    rw [hnil] at hcon
    simp at hcon
  rw [getLast?_dropWhile_of_ne_nil _ _ hne, List.getLast?_reverse] at hcon
  have := head?_dropWhile_pred_false (· == '-') l hcon
  simp at this

theorem getLast?_stripHyphens (l : List Char) : (stripHyphens l).getLast? ≠ some '-' := by
  unfold stripHyphens
  rw [List.getLast?_reverse]
  intro hcon
  have := head?_dropWhile_pred_false (· == '-') _ hcon
  simp at this

/-! ## Slug encoder: general shape facts -/

theorem slugify_heading_shape (text : String) :
    (slugify_heading text).data.all isSlugChar = true ∧
    (slugify_heading text).data.head? ≠ some '-' ∧
    (slugify_heading text).data.getLast? ≠ some '-' := by
  by_cases h : text = "" ∨ pyStrip text = ""
  · rw [slugify_heading, if_pos h]
    exact ⟨by decide, by decide, by decide⟩
  · rw [slugify_heading, if_neg h]
    refine ⟨?_, head?_stripHyphens _, getLast?_stripHyphens _⟩
    rw [List.all_eq_true]
    intro c hc
    exact List.of_mem_filter (mem_stripHyphens hc)

/-- **C3**: `slugify_heading` returns `""` on empty or all-whitespace input;
diacritics reduce to their base ASCII letter and remaining non-ASCII code
points are dropped; after lowercasing, space-to-hyphen replacement and
deletion of every character outside `[a-z0-9-]`, leading and trailing hyphens
are stripped and consecutive hyphens are never collapsed:
`slugify_heading "Timeline & Rollout Strategy" = "timeline--rollout-strategy"`
and `slugify_heading "Café Setup" = "cafe-setup"`.  The general conjunct
states the character-class/edge-hyphen guarantees for every input. -/
theorem slugify_heading_spec :
    slugify_heading "" = "" ∧
    slugify_heading "   " = "" ∧
    slugify_heading "\t\n  \t" = "" ∧
    slugify_heading "Timeline & Rollout Strategy" = "timeline--rollout-strategy" ∧
    slugify_heading "Café Setup" = "cafe-setup" ∧
    slugify_heading "A & B" = "a--b" ∧
    ∀ text : String,
      (slugify_heading text).data.all isSlugChar = true ∧
      (slugify_heading text).data.head? ≠ some '-' ∧
      (slugify_heading text).data.getLast? ≠ some '-' :=
  ⟨by decide, by decide, by decide, by decide, by decide, by decide, slugify_heading_shape⟩

theorem slugify_heading_spec_witness :
    slugify_heading "Timeline & Rollout Strategy" = "timeline--rollout-strategy" :=
  slugify_heading_spec.2.2.2.1

/-! ## Unique-slug thread: characterization -/

theorem lookupA_nil {β : Type} (k : String) : lookupA ([] : List (String × β)) k = none := rfl

theorem lookupA_cons {β : Type} (k' : String) (v : β) (rest : List (String × β)) (k : String) :
    lookupA ((k', v) :: rest) k = if k' = k then some v else lookupA rest k := rfl

theorem lookupA_append {β : Type} (l₁ l₂ : List (String × β)) (k : String) :
    lookupA (l₁ ++ l₂) k = (lookupA l₁ k).or (lookupA l₂ k) := by
  induction l₁ with
  | nil => rw [List.nil_append, lookupA_nil, Option.none_or]
  | cons kv rest ih =>
    obtain ⟨k', v⟩ := kv
    rw [List.cons_append, lookupA_cons, lookupA_cons]
    by_cases h : k' = k
    · rw [if_pos h, if_pos h]
      rfl
    · rw [if_neg h, if_neg h, ih]

theorem lookupA_updateA_self {β : Type} :
    ∀ (l : List (String × β)) (k : String) (v v' : β),
      lookupA l k = some v → lookupA (updateA l k v') k = some v' := by
  intro l
  induction l with
  | nil => intro k v v' h; rw [lookupA_nil] at h; cases h
  | cons kv rest ih =>
    intro k v v' h
    obtain ⟨k0, v0⟩ := kv
    rw [lookupA_cons] at h
    by_cases h0 : k0 = k
    · show lookupA (if k0 = k then (k0, v') :: rest else (k0, v0) :: updateA rest k v') k = some v'
      rw [if_pos h0, lookupA_cons, if_pos h0]
    · rw [if_neg h0] at h
      show lookupA (if k0 = k then (k0, v') :: rest else (k0, v0) :: updateA rest k v') k = some v'
      rw [if_neg h0, lookupA_cons, if_neg h0]
      exact ih k v v' h

theorem lookupA_updateA_ne {β : Type} :
    ∀ (l : List (String × β)) (k k' : String) (v' : β),
      k ≠ k' → lookupA (updateA l k v') k' = lookupA l k' := by
  intro l
  induction l with
  | nil => intro k k' v' _; rfl
  | cons kv rest ih =>
    intro k k' v' hne
    obtain ⟨k0, v0⟩ := kv
    show lookupA (if k0 = k then (k0, v') :: rest else (k0, v0) :: updateA rest k v') k' = _
    by_cases h0 : k0 = k
    · rw [if_pos h0, lookupA_cons, lookupA_cons]
      have : ¬ k0 = k' := by rw [h0]; exact hne
      rw [if_neg this, if_neg this]
    · rw [if_neg h0, lookupA_cons, lookupA_cons]
      by_cases h1 : k0 = k'
      · rw [if_pos h1, if_pos h1]
      · rw [if_neg h1, if_neg h1]
        exact ih k k' v' hne

theorem count_append_singleton_self (p : List String) (b : String) :
    (p ++ [b]).count b = p.count b + 1 := by
  rw [List.count_append, List.count_singleton]
  simp

theorem count_append_singleton_ne (p : List String) {b b' : String} (h : b' ≠ b) :
    (p ++ [b]).count b' = p.count b' := by
  rw [List.count_append, List.count_singleton]
  have : (b == b') = false := by
    rw [beq_eq_false_iff_ne]
    exact fun hh => h hh.symm
  rw [this]
  simp

theorem get_unique_slug_spec (b : String) (seen : List (String × Nat)) (p : List String)
    (h : SeenInv seen p) :
    (get_unique_slug b seen).1 = mkNumberedSlug b (p.count b) ∧
    SeenInv (get_unique_slug b seen).2 (p ++ [b]) := by
  have hb := h b
  by_cases hc : p.count b = 0
  · rw [hc, if_pos rfl] at hb
    rw [get_unique_slug, hb]
    refine ⟨by rw [mkNumberedSlug, hc, if_pos rfl], ?_⟩
    intro b'
    rw [lookupA_append]
    by_cases hbb : b' = b
    · subst hbb
      rw [hb, Option.none_or, lookupA_cons, if_pos rfl, count_append_singleton_self, hc]
      simp
    · have hsingle : lookupA [(b, (0 : Nat))] b' = none := by
        rw [lookupA_cons, if_neg (fun hh => hbb hh.symm), lookupA_nil]
      rw [hsingle, Option.or_none, h b', count_append_singleton_ne p hbb]
  · obtain ⟨k, hk⟩ : ∃ k, p.count b = k + 1 := ⟨p.count b - 1, by omega⟩
    rw [hk] at hb
    rw [if_neg (by omega)] at hb
    simp only [Nat.add_sub_cancel] at hb
    rw [get_unique_slug, hb]
    refine ⟨by rw [mkNumberedSlug, hk, if_neg (by omega)], ?_⟩
    intro b'
    by_cases hbb : b' = b
    · subst hbb
      rw [lookupA_updateA_self seen b' k (k + 1) hb, count_append_singleton_self, hk]
      rw [if_neg (by omega)]
      simp
    · rw [lookupA_updateA_ne seen b b' (k + 1) (fun hh => hbb hh.symm), h b',
        count_append_singleton_ne p hbb]

theorem SeenInv_nil : SeenInv [] [] := by
  intro b
  rw [lookupA_nil, List.count_nil, if_pos rfl]

theorem assignSlugs_nil (seen : List (String × Nat)) : assignSlugs [] seen = [] := rfl

theorem assignSlugs_cons (b : String) (rest : List String) (seen : List (String × Nat)) :
    assignSlugs (b :: rest) seen =
      (get_unique_slug b seen).1 :: assignSlugs rest (get_unique_slug b seen).2 := rfl

theorem canonicalSlugs_nil (p : List String) : canonicalSlugs p [] = [] := rfl

theorem canonicalSlugs_cons (p : List String) (b : String) (rest : List String) :
    canonicalSlugs p (b :: rest) =
      mkNumberedSlug b (p.count b) :: canonicalSlugs (p ++ [b]) rest := rfl

theorem assignSlugs_eq_canonical :
    ∀ (bases : List String) (seen : List (String × Nat)) (p : List String),
      SeenInv seen p → assignSlugs bases seen = canonicalSlugs p bases := by
  intro bases
  induction bases with
  | nil => intro seen p _; rfl
  | cons b rest ih =>
    intro seen p h
    obtain ⟨h1, h2⟩ := get_unique_slug_spec b seen p h
    rw [assignSlugs_cons, canonicalSlugs_cons, h1, ih _ _ h2]

theorem canonicalSlugs_getElem? :
    ∀ (bases p : List String) (i : Nat),
      (canonicalSlugs p bases)[i]? =
        (bases[i]?).map (fun b => mkNumberedSlug b ((p ++ bases.take i).count b)) := by
  intro bases
  induction bases with
  | nil => intro p i; simp [canonicalSlugs_nil]
  | cons b rest ih =>
    intro p i
    rw [canonicalSlugs_cons]
    match i with
    | 0 => simp
    | i + 1 =>
      rw [List.getElem?_cons_succ, List.getElem?_cons_succ, ih (p ++ [b]) i]
      simp [List.append_assoc]

theorem mkNumberedSlug_inj (b : String) {k k' : Nat}
    (h : mkNumberedSlug b k = mkNumberedSlug b k') : k = k' := by
  by_contra hne
  match k, k' with
  | 0, 0 => exact hne rfl
  | 0, m' + 1 =>
    rw [mkNumberedSlug, mkNumberedSlug, if_pos rfl, if_neg (by omega)] at h
    have := congrArg String.length h
    rw [String.length_append, String.length_append] at this
    have h1 := natStr_length_pos (m' + 1)
    have h2 : ("-" : String).length = 1 := by decide
    omega
  | m + 1, 0 =>
    rw [mkNumberedSlug, mkNumberedSlug, if_pos rfl, if_neg (by omega)] at h
    have := congrArg String.length h
    rw [String.length_append, String.length_append] at this
    have h1 := natStr_length_pos (m + 1)
    have h2 : ("-" : String).length = 1 := by decide
    omega
  | m + 1, m' + 1 =>
    rw [mkNumberedSlug, mkNumberedSlug, if_neg (by omega), if_neg (by omega)] at h
    have hdata := congrArg String.data h
    simp only [String.data_append] at hdata
    have hcancel := List.append_cancel_left hdata
    have : natStr (m + 1) = natStr (m' + 1) := String.ext hcancel
    exact hne (by rw [natStr_injective this])

/-- **C1 (amended)**: slugs assigned by threading `get_unique_slug` through
the headings' base slugs in document order are pairwise distinct *among
headings that share the same base slug* (the first occurrence gets the base,
the k-th duplicate gets `base-k`).  Distinctness across different base slugs
can fail — see `heading_slugs_collision_counterexample` — in which case the
later heading's map entry overwrites the earlier one. -/
theorem heading_slugs_same_base_distinct (bases : List String) (i j : Nat)
    (hij : i < j) (hj : j < bases.length) (hbase : bases[i]? = bases[j]?) :
    (assignSlugs bases [])[i]? ≠ (assignSlugs bases [])[j]? := by
  have hi : i < bases.length := lt_trans hij hj
  have hbi : bases[i]? = some bases[i] := List.getElem?_eq_getElem hi
  have hbj : bases[j]? = some bases[i] := by rw [← hbase, hbi]
  rw [assignSlugs_eq_canonical bases [] [] SeenInv_nil, canonicalSlugs_getElem?,
    canonicalSlugs_getElem?, hbi, hbj]
  simp only [Option.map_some', List.nil_append, ne_eq, Option.some.injEq]
  intro heq
  have hkk := mkNumberedSlug_inj _ heq
  -- the count of bases[i] strictly grows from take i to take j
  have hlenj : (bases.take j).length = j := by
    rw [List.length_take]
    omega
  have hij' : i < (bases.take j).length := by omega
  have hgetj : (bases.take j)[i]? = some bases[i] := by
    rw [List.getElem?_take, if_pos hij, hbi]
  have hgetj' : (bases.take j)[i] = bases[i] := by
    have := List.getElem?_eq_getElem hij'
    rw [this] at hgetj
    exact (Option.some.injEq _ _).mp hgetj.symm |>.symm
  have htj : bases.take j = bases.take i ++ (bases.take j).drop i := by
    conv_lhs => rw [← List.take_append_drop i (bases.take j)]
    rw [List.take_take, min_eq_left (le_of_lt hij)]
  have hdropj : (bases.take j).drop i = bases[i] :: (bases.take j).drop (i + 1) := by
    rw [List.drop_eq_getElem_cons hij', hgetj']
  have hc1 : (bases.take j).count bases[i] =
      (bases.take i).count bases[i] + ((bases.take j).drop i).count bases[i] := by
    conv_lhs => rw [htj]
    rw [List.count_append]
  have hc2 : ((bases.take j).drop i).count bases[i] =
      ((bases.take j).drop (i + 1)).count bases[i] + 1 := by
    rw [hdropj, List.count_cons]
    simp
  omega

theorem heading_slugs_same_base_distinct_witness :
    (0 : Nat) < 1 ∧ 1 < (["overview", "overview"] : List String).length ∧
    (["overview", "overview"] : List String)[0]? = (["overview", "overview"] : List String)[1]? ∧
    (assignSlugs ["overview", "overview"] [])[0]? ≠ (assignSlugs ["overview", "overview"] [])[1]? :=
  ⟨by decide, by decide, by decide,
    heading_slugs_same_base_distinct ["overview", "overview"] 0 1 (by decide) (by decide)
      (by decide)⟩

/-- **C1 (counterexample)**: on a document with heading texts "A 1", "A",
"A" (base slugs `a-1`, `a`, `a`), the `get_unique_slug` thread assigns
`a-1`, `a`, `a-1`: not pairwise distinct, and the heading map ends with two
entries for three indexed headings (the third overwrites the first). -/
theorem heading_slugs_collision_counterexample :
    headingBaseSlugs headingCollisionDoc = ["a-1", "a", "a"] ∧
    assignSlugs (headingBaseSlugs headingCollisionDoc) [] = ["a-1", "a", "a-1"] ∧
    ¬ (assignSlugs (headingBaseSlugs headingCollisionDoc) []).Nodup ∧
    (_parse_headings headingCollisionDoc).length = 2 := by
  refine ⟨by decide, by decide, by decide, by decide⟩

/-! ## Marker resolver: scanner correctness -/

theorem stripPrefixL_sound :
    ∀ (ps l r : List Char), stripPrefixL ps l = some r → l = ps ++ r := by
  intro ps
  induction ps with
  | nil =>
    intro l r h
    simp only [stripPrefixL, Option.some.injEq] at h
    rw [h, List.nil_append]
  | cons p ps ih =>
    intro l r h
    match l with
    | [] => simp [stripPrefixL] at h
    | c :: cs =>
      simp only [stripPrefixL] at h
      by_cases hc : c = p
      · rw [if_pos hc] at h
        rw [hc, List.cons_append, ih cs r h]
      · rw [if_neg hc] at h
        cases h

theorem stripPrefixL_self_append (ps r : List Char) : stripPrefixL ps (ps ++ r) = some r := by
  induction ps with
  | nil => rfl
  | cons p ps ih =>
    rw [List.cons_append]
    show (if p = p then stripPrefixL ps (ps ++ r) else none) = some r
    rw [if_pos rfl, ih]

theorem takeWhile_append_sat {α : Type} (p : α → Bool) :
    ∀ (xs : List α) (y : α) (ys : List α), (∀ a ∈ xs, p a = true) → p y = false →
      (xs ++ y :: ys).takeWhile p = xs := by
  intro xs
  induction xs with
  | nil => intro y ys _ hy; rw [List.nil_append, List.takeWhile_cons, hy]; simp
  | cons a t ih =>
    intro y ys hsat hy
    rw [List.cons_append, List.takeWhile_cons, hsat a (List.mem_cons_self a t)]
    simp only [if_true]
    rw [ih y ys (fun b hb => hsat b (List.mem_cons_of_mem a hb)) hy]

theorem dropWhile_append_sat {α : Type} (p : α → Bool) :
    ∀ (xs : List α) (y : α) (ys : List α), (∀ a ∈ xs, p a = true) → p y = false →
      (xs ++ y :: ys).dropWhile p = y :: ys := by
  intro xs
  induction xs with
  | nil => intro y ys _ hy; rw [List.nil_append, List.dropWhile_cons, hy]; simp
  | cons a t ih =>
    intro y ys hsat hy
    rw [List.cons_append, List.dropWhile_cons, hsat a (List.mem_cons_self a t)]
    simp only [if_true]
    exact ih y ys (fun b hb => hsat b (List.mem_cons_of_mem a hb)) hy

theorem markerText_length (kind name : List Char) :
    (markerText kind name).length = kind.length + name.length + 3 := by
  simp only [markerText, List.length_cons, List.length_append, List.length_singleton,
    List.length_nil]
  omega

theorem tryMarker_nil (kind : List Char) : tryMarker kind [] = none := rfl

theorem tryMarker_cons (kind : List Char) (c : Char) (r1 : List Char) :
    tryMarker kind (c :: r1) =
      if c = '[' then tryMarkerAfterKind (stripPrefixL kind r1) else none := rfl

theorem tryMarkerAfterKind_none : tryMarkerAfterKind none = none := rfl

theorem tryMarkerAfterKind_some_nil : tryMarkerAfterKind (some []) = none := rfl

theorem tryMarkerAfterKind_some_cons (c2 : Char) (r2 : List Char) :
    tryMarkerAfterKind (some (c2 :: r2)) =
      if c2 = ':' then tryMarkerTail r2 else none := rfl

theorem tryMarkerTail_eq (r2 : List Char) :
    tryMarkerTail r2 = tryMarkerClose (r2.takeWhile isWordChar) (r2.dropWhile isWordChar) := rfl

theorem tryMarkerClose_nil (tw : List Char) : tryMarkerClose tw [] = none := rfl

theorem tryMarkerClose_cons (tw : List Char) (c3 : Char) (r4 : List Char) :
    tryMarkerClose tw (c3 :: r4) =
      if c3 = ']' ∧ tw ≠ [] then some (tw, r4) else none := rfl

theorem tryMarker_none_head (kind : List Char) (c : Char) (r : List Char) (h : c ≠ '[') :
    tryMarker kind (c :: r) = none := by
  rw [tryMarker_cons, if_neg h]

theorem tryMarker_sound (kind : List Char) (l name rest2 : List Char)
    (h : tryMarker kind l = some (name, rest2)) :
    l = markerText kind name ++ rest2 ∧ name ≠ [] ∧ ∀ c ∈ name, isWordChar c = true := by
  match l with
  | [] => rw [tryMarker_nil] at h; cases h
  | c :: r1 =>
    rw [tryMarker_cons] at h
    by_cases hc : c = '['
    · rw [if_pos hc] at h
      subst hc
      cases hsp : stripPrefixL kind r1 with
      | none => rw [hsp, tryMarkerAfterKind_none] at h; cases h
      | some r =>
        rw [hsp] at h
        match r with
        | [] => rw [tryMarkerAfterKind_some_nil] at h; cases h
        | c2 :: r2 =>
          rw [tryMarkerAfterKind_some_cons] at h
          by_cases hc2 : c2 = ':'
          · rw [if_pos hc2] at h
            subst hc2
            rw [tryMarkerTail_eq] at h
            cases hdw : r2.dropWhile isWordChar with
            | nil => rw [hdw, tryMarkerClose_nil] at h; cases h
            | cons c3 r4 =>
              rw [hdw, tryMarkerClose_cons] at h
              by_cases hc3 : c3 = ']' ∧ r2.takeWhile isWordChar ≠ []
              · rw [if_pos hc3] at h
                obtain ⟨hc3', hne⟩ := hc3
                injection h with h'
                have hn : name = r2.takeWhile isWordChar := (congrArg Prod.fst h').symm
                have hr : rest2 = r4 := (congrArg Prod.snd h').symm
                subst hn
                subst hr
                refine ⟨?_, hne, fun c hcm => List.mem_takeWhile_imp hcm⟩
                have hr1 : r1 = kind ++ ':' :: r2 := stripPrefixL_sound kind r1 _ hsp
                have hr2 : r2 = r2.takeWhile isWordChar ++ r2.dropWhile isWordChar :=
                  (List.takeWhile_append_dropWhile _ _).symm
                rw [markerText, hr1]
                conv_lhs => rw [hr2, hdw, hc3']
                simp [List.append_assoc]
              · rw [if_neg hc3] at h
                cases h
          · rw [if_neg hc2] at h
            cases h
    · rw [if_neg hc] at h
      cases h

theorem scanRun_zero (kind : List Char) (l : List Char) (pos : Nat) :
    scanRun kind 0 l pos = [] := rfl

theorem scanRun_fuel_nil (kind : List Char) (f : Nat) (pos : Nat) :
    scanRun kind (f + 1) [] pos = [] := rfl

theorem scanRun_succ_match (kind : List Char) (f : Nat) (c : Char) (rest : List Char) (pos : Nat)
    (name rest2 : List Char) (h : tryMarker kind (c :: rest) = some (name, rest2)) :
    scanRun kind (f + 1) (c :: rest) pos =
      ⟨⟨name⟩, pos, kind.length + name.length + 3⟩ ::
        scanRun kind f rest2 (pos + (kind.length + name.length + 3)) := by
  conv_lhs => rw [scanRun, h]

theorem scanRun_succ_none (kind : List Char) (f : Nat) (c : Char) (rest : List Char) (pos : Nat)
    (h : tryMarker kind (c :: rest) = none) :
    scanRun kind (f + 1) (c :: rest) pos = scanRun kind f rest (pos + 1) := by
  conv_lhs => rw [scanRun, h]

theorem scanRun_sound (kind : List Char) :
    ∀ (f : Nat) (l : List Char) (pos : Nat) (m : MarkerLoc), m ∈ scanRun kind f l pos →
      ∃ pre post : List Char,
        l = pre ++ markerText kind m.name.data ++ post ∧
        m.index = pos + pre.length ∧
        m.length = (markerText kind m.name.data).length ∧
        m.name.data ≠ [] ∧ (∀ c ∈ m.name.data, isWordChar c = true) := by
  intro f
  induction f with
  | zero => intro l pos m hm; rw [scanRun_zero] at hm; cases hm
  | succ f ih =>
    intro l pos m hm
    match l with
    | [] => rw [scanRun_fuel_nil] at hm; cases hm
    | c :: rest =>
      cases htry : tryMarker kind (c :: rest) with
      | some pr =>
        obtain ⟨name, rest2⟩ := pr
        rw [scanRun_succ_match kind f c rest pos name rest2 htry] at hm
        obtain ⟨hsound, hne, hword⟩ := tryMarker_sound kind _ name rest2 htry
        rcases List.mem_cons.mp hm with hm | hm
        · subst hm
          refine ⟨[], rest2, ?_, by simp, ?_, hne, hword⟩
          · rw [List.nil_append]
            exact hsound
          · rw [markerText_length]
        · obtain ⟨pre', post', h1, h2, h3, h4, h5⟩ := ih rest2 _ m hm
          refine ⟨markerText kind name ++ pre', post', ?_, ?_, h3, h4, h5⟩
          · rw [hsound, h1]
            simp only [List.append_assoc]
          · rw [h2, List.length_append, markerText_length]
            omega
      | none =>
        rw [scanRun_succ_none kind f c rest pos htry] at hm
        obtain ⟨pre', post', h1, h2, h3, h4, h5⟩ := ih rest (pos + 1) m hm
        refine ⟨c :: pre', post', ?_, ?_, h3, h4, h5⟩
        · rw [h1]
          simp only [List.cons_append, List.append_assoc]
        · rw [h2, List.length_cons]
          omega

theorem scanRun_index_ge (kind : List Char) (f : Nat) (l : List Char) (pos : Nat)
    (m : MarkerLoc) (hm : m ∈ scanRun kind f l pos) : pos ≤ m.index := by
  obtain ⟨pre, post, _, h2, _, _, _⟩ := scanRun_sound kind f l pos m hm
  omega

theorem scanRun_pairwise (kind : List Char) :
    ∀ (f : Nat) (l : List Char) (pos : Nat),
      (scanRun kind f l pos).Pairwise (fun a b => a.index < b.index) := by
  intro f
  induction f with
  | zero => intro l pos; rw [scanRun_zero]; exact List.Pairwise.nil
  | succ f ih =>
    intro l pos
    match l with
    | [] => rw [scanRun_fuel_nil]; exact List.Pairwise.nil
    | c :: rest =>
      cases htry : tryMarker kind (c :: rest) with
      | some pr =>
        obtain ⟨name, rest2⟩ := pr
        rw [scanRun_succ_match kind f c rest pos name rest2 htry]
        refine List.Pairwise.cons ?_ (ih rest2 _)
        intro b hb
        have hge := scanRun_index_ge kind f rest2 _ b hb
        show pos < b.index
        omega
      | none =>
        rw [scanRun_succ_none kind f c rest pos htry]
        exact ih rest _

theorem scanRun_no_bracket (kind : List Char) :
    ∀ (f : Nat) (l : List Char) (pos : Nat), '[' ∉ l → scanRun kind f l pos = [] := by
  intro f
  induction f with
  | zero => intro l pos _; rw [scanRun_zero]
  | succ f ih =>
    intro l pos hl
    match l with
    | [] => rw [scanRun_fuel_nil]
    | c :: rest =>
      have hc : c ≠ '[' := fun hh => hl (hh ▸ List.mem_cons_self c rest)
      rw [scanRun_succ_none kind f c rest pos (tryMarker_none_head kind c rest hc)]
      exact ih rest (pos + 1) (fun hh => hl (List.mem_cons_of_mem c hh))

theorem tryMarker_at_marker (kind name post : List Char)
    (hname : name ≠ []) (hword : ∀ c ∈ name, isWordChar c = true) :
    tryMarker kind (markerText kind name ++ post) = some (name, post) := by
  have hshape : markerText kind name ++ post = '[' :: (kind ++ ':' :: (name ++ ']' :: post)) := by
    simp [markerText, List.append_assoc]
  have hdw : (name ++ ']' :: post).dropWhile isWordChar = ']' :: post :=
    dropWhile_append_sat isWordChar name ']' post hword (by decide)
  have htw : (name ++ ']' :: post).takeWhile isWordChar = name :=
    takeWhile_append_sat isWordChar name ']' post hword (by decide)
  rw [hshape, tryMarker_cons, if_pos rfl, stripPrefixL_self_append,
    tryMarkerAfterKind_some_cons, if_pos rfl, tryMarkerTail_eq, hdw, htw,
    tryMarkerClose_cons, if_pos ⟨rfl, hname⟩]

theorem scanRun_marker_instance (kind name post : List Char)
    (hname : name ≠ []) (hword : ∀ c ∈ name, isWordChar c = true) (hpost : '[' ∉ post) :
    ∀ pre : List Char, '[' ∉ pre → ∀ pos f : Nat,
      (pre ++ markerText kind name ++ post).length ≤ f →
      scanRun kind f (pre ++ markerText kind name ++ post) pos =
        [⟨⟨name⟩, pos + pre.length, kind.length + name.length + 3⟩] := by
  intro pre
  induction pre with
  | nil =>
    intro _ pos f hf
    rw [List.nil_append] at hf ⊢
    have hlen : 0 < (markerText kind name ++ post).length := by
      rw [List.length_append, markerText_length]
      omega
    match f, hf with
    | f + 1, hf =>
      have hshape : markerText kind name ++ post =
          '[' :: ((kind ++ ':' :: name ++ [']']) ++ post) := by
        simp [markerText, List.append_assoc]
      rw [hshape, scanRun_succ_match kind f _ _ pos name post
        (by rw [← hshape]; exact tryMarker_at_marker kind name post hname hword),
        scanRun_no_bracket kind f post _ hpost]
      simp
  | cons c pre' ihp =>
    intro hpre pos f hf
    rw [List.cons_append, List.cons_append] at hf ⊢
    match f, hf with
    | f + 1, hf =>
      have hc : c ≠ '[' := fun hh => hpre (hh ▸ List.mem_cons_self c pre')
      rw [scanRun_succ_none kind f c _ pos (tryMarker_none_head kind c _ hc)]
      have hf' : (pre' ++ markerText kind name ++ post).length ≤ f := by
        rw [List.length_cons] at hf
        omega
      have hpre' : '[' ∉ pre' := fun hh => hpre (List.mem_cons_of_mem c hh)
      rw [ihp hpre' (pos + 1) f hf']
      have harith : pos + 1 + pre'.length = pos + (c :: pre').length := by
        rw [List.length_cons]
        omega
      rw [harith]

theorem markerTail_length (kind name : List Char) :
    (kind ++ ':' :: name ++ [']']).length = kind.length + name.length + 2 := by
  rw [List.length_append, List.length_append, List.length_cons, List.length_singleton]
  omega

theorem markerTail_no_bracket (kind name : List Char) (hk : '[' ∉ kind)
    (hword : ∀ c ∈ name, isWordChar c = true) :
    '[' ∉ kind ++ ':' :: name ++ [']'] := by
  intro hmem
  rcases List.mem_append.mp hmem with h | h
  · rcases List.mem_append.mp h with h | h
    · exact hk h
    · rcases List.mem_cons.mp h with h | h
      · exact absurd h (by decide)
      · exact absurd (hword '[' h) (by decide)
  · rcases List.mem_cons.mp h with h | h
    · exact absurd h (by decide)
    · exact absurd h (List.not_mem_nil _)

/-- A regex match cannot start strictly inside a marker's matched text: the
characters after the opening `[` are the kind (bracket-free), `:`, word
characters, and `]`, none of which is `[`. -/
theorem tryMarker_drop_interior (kind name rest2 : List Char) (hk : '[' ∉ kind)
    (hword : ∀ c ∈ name, isWordChar c = true) (j : Nat)
    (hj : j < (kind ++ ':' :: name ++ [']']).length) :
    tryMarker kind ((markerText kind name ++ rest2).drop (j + 1)) = none := by
  have hshape : markerText kind name ++ rest2 =
      '[' :: ((kind ++ ':' :: name ++ [']']) ++ rest2) := by
    simp [markerText, List.append_assoc]
  rw [hshape, List.drop_succ_cons]
  cases hd : ((kind ++ ':' :: name ++ [']']) ++ rest2).drop j with
  | nil => exact tryMarker_nil kind
  | cons ch tail2 =>
    have h1 : ((kind ++ ':' :: name ++ [']']) ++ rest2)[j]? = some ch := by
      rw [← List.head?_drop, hd]
      rfl
    rw [List.getElem?_append_left hj] at h1
    have hch : ch ∈ kind ++ ':' :: name ++ [']'] := List.getElem?_mem h1
    exact tryMarker_none_head kind ch tail2
      (fun he => markerTail_no_bracket kind name hk hword (he ▸ hch))

theorem matchAt_none (kind l : List Char) (pos i : Nat)
    (h : tryMarker kind (l.drop i) = none) : matchAt kind l pos i = none := by
  unfold matchAt
  rw [h]

theorem matchAt_some (kind l : List Char) (pos i : Nat) (name rest : List Char)
    (h : tryMarker kind (l.drop i) = some (name, rest)) :
    matchAt kind l pos i = some ⟨⟨name⟩, pos + i, (markerText kind name).length⟩ := by
  unfold matchAt
  rw [h]

theorem runMatches_nil (kind : List Char) (pos : Nat) : runMatches kind [] pos = [] := rfl

theorem runMatches_cons_none (kind : List Char) (c : Char) (rest : List Char) (pos : Nat)
    (h : tryMarker kind (c :: rest) = none) :
    runMatches kind (c :: rest) pos = runMatches kind rest (pos + 1) := by
  rw [runMatches, runMatches, List.length_cons, List.range_succ_eq_map, List.filterMap_cons,
    matchAt_none kind (c :: rest) pos 0 (by rw [List.drop_zero]; exact h), List.filterMap_map]
  refine List.filterMap_congr ?_
  intro i _
  show matchAt kind (c :: rest) pos (i + 1) = matchAt kind rest (pos + 1) i
  unfold matchAt
  rw [List.drop_succ_cons]
  cases htm : tryMarker kind (rest.drop i) with
  | none => rfl
  | some p =>
    rcases p with ⟨nm, r⟩
    have harith : pos + (i + 1) = pos + 1 + i := by omega
    rw [harith]

theorem runMatches_match (kind : List Char) (hk : '[' ∉ kind) (name rest2 : List Char)
    (pos : Nat) (hname : name ≠ []) (hword : ∀ c ∈ name, isWordChar c = true) :
    runMatches kind (markerText kind name ++ rest2) pos =
      ⟨⟨name⟩, pos, (markerText kind name).length⟩ ::
        runMatches kind rest2 (pos + (markerText kind name).length) := by
  have hlen : (markerText kind name ++ rest2).length =
      ((kind ++ ':' :: name ++ [']']).length + 1) + rest2.length := by
    rw [List.length_append, markerText_length, markerTail_length]
  have hnil : List.filterMap (matchAt kind (markerText kind name ++ rest2) pos)
      (List.map Nat.succ (List.range (kind ++ ':' :: name ++ [']']).length)) = [] := by
    rw [List.filterMap_map]
    refine List.filterMap_eq_nil_iff.mpr ?_
    intro j hj
    exact matchAt_none kind (markerText kind name ++ rest2) pos (j + 1)
      (tryMarker_drop_interior kind name rest2 hk hword j (List.mem_range.mp hj))
  have hshift : List.filterMap (matchAt kind (markerText kind name ++ rest2) pos)
      (List.map ((kind ++ ':' :: name ++ [']']).length + 1 + ·) (List.range rest2.length)) =
      runMatches kind rest2 (pos + (markerText kind name).length) := by
    rw [List.filterMap_map, runMatches]
    refine List.filterMap_congr ?_
    intro i _
    have hA1 : (kind ++ ':' :: name ++ [']']).length + 1 = (markerText kind name).length := by
      rw [markerText_length, markerTail_length]
    show matchAt kind (markerText kind name ++ rest2) pos
        ((kind ++ ':' :: name ++ [']']).length + 1 + i) =
      matchAt kind rest2 (pos + (markerText kind name).length) i
    unfold matchAt
    rw [hA1, List.drop_append]
    cases htm : tryMarker kind (rest2.drop i) with
    | none => rfl
    | some p =>
      rcases p with ⟨nm, r⟩
      have harith : pos + ((markerText kind name).length + i) =
          pos + (markerText kind name).length + i := by omega
      rw [harith]
  rw [runMatches, hlen, List.range_add, List.filterMap_append, List.range_succ_eq_map,
    List.filterMap_cons,
    matchAt_some kind (markerText kind name ++ rest2) pos 0 name rest2
      (by rw [List.drop_zero]; exact tryMarker_at_marker kind name rest2 hname hword),
    hnil, hshift]
  rfl

/-- With a bracket-free kind (matches cannot overlap), the fueled scanner
returns exactly the spec-side enumeration: one location per matching
position, in increasing position order. -/
theorem scanRun_eq_runMatches (kind : List Char) (hk : '[' ∉ kind) :
    ∀ (n : Nat) (l : List Char) (pos : Nat), l.length ≤ n →
      scanRun kind n l pos = runMatches kind l pos := by
  intro n
  induction n with
  | zero =>
    intro l pos hl
    have hle : l = [] := List.length_eq_zero.mp (Nat.le_zero.mp hl)
    subst hle
    rw [scanRun_zero, runMatches_nil]
  | succ n ih =>
    intro l pos hl
    cases l with
    | nil => rw [scanRun_fuel_nil, runMatches_nil]
    | cons c rest =>
      cases htm : tryMarker kind (c :: rest) with
      | none =>
        rw [scanRun_succ_none kind n c rest pos htm, runMatches_cons_none kind c rest pos htm]
        exact ih rest (pos + 1) (by rw [List.length_cons] at hl; omega)
      | some p =>
        rcases p with ⟨name, rest2⟩
        obtain ⟨hsplit, hname, hword⟩ := tryMarker_sound kind (c :: rest) name rest2 htm
        have h1 : rest.length + 1 = (markerText kind name).length + rest2.length := by
          have h0 := congrArg List.length hsplit
          rw [List.length_cons, List.length_append] at h0
          exact h0
        have h2 : 0 < (markerText kind name).length := by
          rw [markerText_length]
          omega
        rw [List.length_cons] at hl
        have hr2 : rest2.length ≤ n := by omega
        rw [scanRun_succ_match kind n c rest pos name rest2 htm, hsplit,
          runMatches_match kind hk name rest2 pos hname hword, markerText_length,
          ih rest2 (pos + (kind.length + name.length + 3)) hr2]

theorem findMarkers_eq_markerMatches (kind : String) (hk : '[' ∉ kind.data)
    (document : Document) : findMarkers kind document = markerMatches kind document := by
  rw [findMarkers, markerMatches]
  have hgen : ∀ rs : List (Nat × String),
      (rs.flatMap fun r => scanRun kind.data r.2.data.length r.2.data r.1) =
        rs.flatMap fun r => runMatches kind.data r.2.data r.1 := by
    intro rs
    induction rs with
    | nil => rfl
    | cons r rest ih =>
      rw [List.flatMap_cons, List.flatMap_cons, ih,
        scanRun_eq_runMatches kind.data hk r.2.data.length r.2.data r.1 le_rfl]
  exact hgen (docRuns document)

theorem tryMarker_iff (kind l name rest : List Char) :
    tryMarker kind l = some (name, rest) ↔
      (name ≠ [] ∧ (∀ c ∈ name, isWordChar c = true) ∧ l = markerText kind name ++ rest) := by
  constructor
  · intro h
    obtain ⟨h1, h2, h3⟩ := tryMarker_sound kind l name rest h
    exact ⟨h2, h3, h1⟩
  · rintro ⟨h1, h2, h3⟩
    rw [h3]
    exact tryMarker_at_marker kind name rest h1 h2

/-- **C4**: complete characterization of the marker resolver.  For *every*
document, `find_diagram_markers` and `find_image_markers` return exactly
`markerMatches`: run by run in document order, one location per position of
the run's content at which the regex `\[KIND:(\w+)\]` matches (positions in
increasing order), each location carrying the captured name, the absolute
start offset `startIndex + match position`, and the full matched marker
text's length (brackets, kind and colon included).  The closing `↔` grounds
the matcher in the regex: it succeeds at a position with capture `name` and
remainder `rest` exactly when the content from that position on is the
literal `[`, the kind, `:`, a non-empty run of word characters (`name`),
`]`, then `rest`. -/
theorem find_markers_spec (document : Document) :
    find_diagram_markers document = markerMatches "DIAGRAM" document ∧
    find_image_markers document = markerMatches "IMAGE" document ∧
    ∀ kind l name rest : List Char,
      tryMarker kind l = some (name, rest) ↔
        (name ≠ [] ∧ (∀ c ∈ name, isWordChar c = true) ∧
          l = markerText kind name ++ rest) :=
  ⟨findMarkers_eq_markerMatches "DIAGRAM" (by decide) document,
   findMarkers_eq_markerMatches "IMAGE" (by decide) document,
   tryMarker_iff⟩

theorem find_markers_spec_witness :
    find_diagram_markers docMW = markerMatches "DIAGRAM" docMW ∧
    find_diagram_markers docMW =
      [⟨"d_a1", 2, 14⟩, ⟨"d_a1", 17, 14⟩, ⟨"b2", 40, 12⟩] :=
  ⟨(find_markers_spec docMW).1, by decide⟩

/-! ## Anchor link converter -/

theorem buildReqs_nil (hm : List (String × HeadingEntry)) : buildReqs hm [] = ([], 0) := rfl

theorem buildReqs_cons_none (hm : List (String × HeadingEntry)) (link : AnchorLink)
    (rest : List AnchorLink) (h : lookupA hm link.anchor = none) :
    buildReqs hm (link :: rest) = buildReqs hm rest := by
  conv_lhs => rw [buildReqs, h]

theorem buildReqs_cons_some (hm : List (String × HeadingEntry)) (link : AnchorLink)
    (rest : List AnchorLink) (entry : HeadingEntry) (h : lookupA hm link.anchor = some entry) :
    buildReqs hm (link :: rest) =
      (mkLinkRequest link entry :: (buildReqs hm rest).1, (buildReqs hm rest).2 + 1) := by
  conv_lhs => rw [buildReqs, h]

theorem buildReqs_count (hm : List (String × HeadingEntry)) :
    ∀ l : List AnchorLink, (buildReqs hm l).2 = (buildReqs hm l).1.length := by
  intro l
  induction l with
  | nil => rfl
  | cons link rest ih =>
    cases hl : lookupA hm link.anchor with
    | none => rw [buildReqs_cons_none hm link rest hl]; exact ih
    | some entry => rw [buildReqs_cons_some hm link rest entry hl]; simp [ih]

theorem buildReqs_fst_eq_filterMap (hm : List (String × HeadingEntry)) :
    ∀ l : List AnchorLink, (buildReqs hm l).1 =
      l.filterMap (fun link => (lookupA hm link.anchor).map (mkLinkRequest link)) := by
  intro l
  induction l with
  | nil => rfl
  | cons link rest ih =>
    cases hl : lookupA hm link.anchor with
    | none =>
      rw [buildReqs_cons_none hm link rest hl, List.filterMap_cons, hl]
      exact ih
    | some entry =>
      rw [buildReqs_cons_some hm link rest entry hl, List.filterMap_cons, hl]
      simp [ih]

theorem buildReqs_count_eq_filter (hm : List (String × HeadingEntry)) :
    ∀ l : List AnchorLink, (buildReqs hm l).2 =
      (l.filter (fun link => (lookupA hm link.anchor).isSome)).length := by
  intro l
  induction l with
  | nil => rfl
  | cons link rest ih =>
    cases hl : lookupA hm link.anchor with
    | none =>
      rw [buildReqs_cons_none hm link rest hl, List.filter_cons]
      simp [hl, ih]
    | some entry =>
      rw [buildReqs_cons_some hm link rest entry hl, List.filter_cons]
      simp [hl, ih]

theorem buildReqs_all_missing (hm : List (String × HeadingEntry)) :
    ∀ l : List AnchorLink, (∀ x ∈ l, lookupA hm x.anchor = none) → buildReqs hm l = ([], 0) := by
  intro l
  induction l with
  | nil => intro _; rfl
  | cons link rest ih =>
    intro hmiss
    rw [buildReqs_cons_none hm link rest (hmiss link (List.mem_cons_self link rest))]
    exact ih (fun x hx => hmiss x (List.mem_cons_of_mem link hx))

theorem sortLinksDesc_sorted (anchor_links : List AnchorLink) :
    (sortLinksDesc anchor_links).Pairwise (fun a b => b.start_index ≤ a.start_index) := by
  haveI : IsTotal AnchorLink (fun a b => b.start_index ≤ a.start_index) :=
    ⟨fun a b => le_total b.start_index a.start_index⟩
  haveI : IsTrans AnchorLink (fun a b => b.start_index ≤ a.start_index) :=
    ⟨fun _ _ _ h1 h2 => le_trans h2 h1⟩
  exact List.sorted_insertionSort _ anchor_links

theorem sortLinksDesc_perm (anchor_links : List AnchorLink) :
    (sortLinksDesc anchor_links).Perm anchor_links :=
  List.perm_insertionSort _ anchor_links

/-- **C5**: `convert_anchor_links` returns exactly the number of links whose
slug is present in the heading map (skipped links are excluded from the
count); a returned `none` batch means nothing was submitted and the count is
`0`; and a submitted batch has one request per surviving link, is ordered by
start offset descending, and every request rewrites that link's exact range
to the looked-up heading's stable `headingId` (never the slug), all in one
batched call. -/
theorem convert_anchor_links_spec (heading_map : List (String × HeadingEntry))
    (anchor_links : List AnchorLink) :
    (convert_anchor_links heading_map anchor_links).1 =
      (anchor_links.filter (fun l => (lookupA heading_map l.anchor).isSome)).length ∧
    ((convert_anchor_links heading_map anchor_links).2 = none →
      (convert_anchor_links heading_map anchor_links).1 = 0) ∧
    ∀ reqs, (convert_anchor_links heading_map anchor_links).2 = some reqs →
      reqs.length = (convert_anchor_links heading_map anchor_links).1 ∧
      reqs.Pairwise (fun a b => b.startIndex ≤ a.startIndex) ∧
      ∀ r ∈ reqs, ∃ link ∈ anchor_links, ∃ entry,
        lookupA heading_map link.anchor = some entry ∧ r = mkLinkRequest link entry := by
  by_cases hnil : anchor_links = []
  · subst hnil
    refine ⟨rfl, fun _ => rfl, fun reqs h => ?_⟩
    rw [convert_anchor_links, if_pos rfl] at h
    cases h
  · have hcount := buildReqs_count_eq_filter heading_map (sortLinksDesc anchor_links)
    have hfl : ((sortLinksDesc anchor_links).filter
          (fun l => (lookupA heading_map l.anchor).isSome)).length =
        (anchor_links.filter (fun l => (lookupA heading_map l.anchor).isSome)).length :=
      ((sortLinksDesc_perm anchor_links).filter _).length_eq
    simp only [convert_anchor_links, if_neg hnil]
    by_cases hreq : (buildReqs heading_map (sortLinksDesc anchor_links)).1 = []
    · rw [if_pos hreq]
      have h0 : (buildReqs heading_map (sortLinksDesc anchor_links)).2 = 0 := by
        rw [buildReqs_count, hreq]
        rfl
      refine ⟨?_, fun _ => rfl, fun reqs h => ?_⟩
      · show 0 = _
        omega
      · cases h
    · rw [if_neg hreq]
      refine ⟨?_, ?_, ?_⟩
      · show (buildReqs heading_map (sortLinksDesc anchor_links)).2 = _
        rw [hcount]
        exact hfl
      · intro h
        exact absurd h (by simp)
      · intro reqs h
        have h2 : some (buildReqs heading_map (sortLinksDesc anchor_links)).1 = some reqs := h
        have hreqs : reqs = (buildReqs heading_map (sortLinksDesc anchor_links)).1 := by
          injection h2 with h'
          exact h'.symm
        subst hreqs
        refine ⟨(buildReqs_count heading_map _).symm, ?_, ?_⟩
        · rw [buildReqs_fst_eq_filterMap]
          refine List.Pairwise.filterMap _ ?_ (sortLinksDesc_sorted anchor_links)
          intro a a' hle x hx y hy
          simp only [Option.mem_def, Option.map_eq_some'] at hx hy
          obtain ⟨ea, _, hxa⟩ := hx
          obtain ⟨ea', _, hya⟩ := hy
          rw [← hxa, ← hya]
          exact hle
        · intro r hr
          rw [buildReqs_fst_eq_filterMap, List.mem_filterMap] at hr
          obtain ⟨link, hlink, hfl'⟩ := hr
          rw [Option.map_eq_some'] at hfl'
          obtain ⟨entry, he, hre⟩ := hfl'
          exact ⟨link, ((sortLinksDesc_perm anchor_links).mem_iff).mp hlink, entry, he, hre.symm⟩

theorem convert_anchor_links_spec_witness :
    ([⟨14, 41, "h.def456"⟩] : List UpdateTextStyleRequest).length =
      (convert_anchor_links anchorMapW anchorLinksW).1 ∧
    ([⟨14, 41, "h.def456"⟩] : List UpdateTextStyleRequest).Pairwise
      (fun a b => b.startIndex ≤ a.startIndex) ∧
    ∀ r ∈ ([⟨14, 41, "h.def456"⟩] : List UpdateTextStyleRequest),
      ∃ link ∈ anchorLinksW, ∃ entry,
        lookupA anchorMapW link.anchor = some entry ∧ r = mkLinkRequest link entry :=
  (convert_anchor_links_spec anchorMapW anchorLinksW).2.2 [⟨14, 41, "h.def456"⟩] (by decide)

/-- **C10**: when `anchor_links` is non-empty but every link's slug is absent
from `heading_map`, `convert_anchor_links` returns `0` without issuing any
document-store mutation call (`batch = none`); and in general a returned
count of `0` implies no mutation call was issued, so the document is
unchanged whenever the returned count is `0`. -/
theorem convert_anchor_links_all_skipped (heading_map : List (String × HeadingEntry))
    (anchor_links : List AnchorLink) (hne : anchor_links ≠ [])
    (hmiss : ∀ l ∈ anchor_links, lookupA heading_map l.anchor = none) :
    convert_anchor_links heading_map anchor_links = (0, none) ∧
    ∀ (hm' : List (String × HeadingEntry)) (links' : List AnchorLink),
      (convert_anchor_links hm' links').1 = 0 → (convert_anchor_links hm' links').2 = none := by
  constructor
  · have hmiss' : ∀ x ∈ sortLinksDesc anchor_links, lookupA heading_map x.anchor = none :=
      fun x hx => hmiss x (((sortLinksDesc_perm anchor_links).mem_iff).mp hx)
    simp only [convert_anchor_links, if_neg hne]
    rw [buildReqs_all_missing heading_map _ hmiss']
    rfl
  · intro hm' links' h
    by_cases h1 : links' = []
    · simp only [convert_anchor_links, if_pos h1]
    · simp only [convert_anchor_links, if_neg h1] at h ⊢
      by_cases h2 : (buildReqs hm' (sortLinksDesc links')).1 = []
      · rw [if_pos h2]
      · rw [if_neg h2] at h ⊢
        exfalso
        have hcount := buildReqs_count hm' (sortLinksDesc links')
        have hlen : (buildReqs hm' (sortLinksDesc links')).1.length ≠ 0 :=
          fun hh => h2 (List.length_eq_zero.mp hh)
        have h' : (buildReqs hm' (sortLinksDesc links')).2 = 0 := h
        omega

theorem convert_anchor_links_all_skipped_witness :
    convert_anchor_links [] [⟨"x", 0, 1, "t"⟩] = (0, none) ∧
    ∀ (hm' : List (String × HeadingEntry)) (links' : List AnchorLink),
      (convert_anchor_links hm' links').1 = 0 → (convert_anchor_links hm' links').2 = none :=
  convert_anchor_links_all_skipped [] [⟨"x", 0, 1, "t"⟩] (by decide) (by decide)

/-! ## Generic `re.sub` scanner lemmas -/

theorem subScan_zero {μ σ : Type} (tryM : List Char → Option (μ × List Char))
    (handler : σ → μ → List Char × σ) (l : List Char) (s : σ) :
    subScan tryM handler 0 l s = (l, s) := rfl

theorem subScan_succ_nil {μ σ : Type} (tryM : List Char → Option (μ × List Char))
    (handler : σ → μ → List Char × σ) (f : Nat) (s : σ) :
    subScan tryM handler (f + 1) [] s = ([], s) := rfl

theorem subScan_succ_match {μ σ : Type} (tryM : List Char → Option (μ × List Char))
    (handler : σ → μ → List Char × σ) (f : Nat) (c : Char) (rest : List Char) (s : σ)
    (m : μ) (rest2 : List Char) (h : tryM (c :: rest) = some (m, rest2)) :
    subScan tryM handler (f + 1) (c :: rest) s =
      ((handler s m).1 ++ (subScan tryM handler f rest2 (handler s m).2).1,
        (subScan tryM handler f rest2 (handler s m).2).2) := by
  conv_lhs => rw [subScan, h]

theorem subScan_succ_none {μ σ : Type} (tryM : List Char → Option (μ × List Char))
    (handler : σ → μ → List Char × σ) (f : Nat) (c : Char) (rest : List Char) (s : σ)
    (h : tryM (c :: rest) = none) :
    subScan tryM handler (f + 1) (c :: rest) s =
      (c :: (subScan tryM handler f rest s).1, (subScan tryM handler f rest s).2) := by
  conv_lhs => rw [subScan, h]

theorem subScan_adequate {μ σ : Type} (tryM : List Char → Option (μ × List Char))
    (handler : σ → μ → List Char × σ)
    (hconsume : ∀ (l : List Char) (m : μ) (r : List Char),
      tryM l = some (m, r) → r.length < l.length) :
    ∀ (f₁ : Nat) (l : List Char) (s : σ) (f₂ : Nat), l.length ≤ f₁ → l.length ≤ f₂ →
      subScan tryM handler f₁ l s = subScan tryM handler f₂ l s := by
  intro f₁
  induction f₁ with
  | zero =>
    intro l s f₂ h₁ _
    have hl : l = [] := List.length_eq_zero.mp (Nat.le_zero.mp h₁)
    subst hl
    match f₂ with
    | 0 => rfl
    | g + 1 => rw [subScan_zero, subScan_succ_nil]
  | succ f ih =>
    intro l s f₂ h₁ h₂
    match l with
    | [] =>
      match f₂ with
      | 0 => rw [subScan_zero, subScan_succ_nil]
      | g + 1 => rw [subScan_succ_nil, subScan_succ_nil]
    | c :: rest =>
      match f₂, h₂ with
      | g + 1, h₂ =>
        rw [List.length_cons] at h₁ h₂
        cases htry : tryM (c :: rest) with
        | some pr =>
          obtain ⟨m, rest2⟩ := pr
          have hlt := hconsume _ m rest2 htry
          rw [List.length_cons] at hlt
          rw [subScan_succ_match tryM handler f c rest s m rest2 htry,
            subScan_succ_match tryM handler g c rest s m rest2 htry,
            ih rest2 (handler s m).2 g (by omega) (by omega)]
        | none =>
          rw [subScan_succ_none tryM handler f c rest s htry,
            subScan_succ_none tryM handler g c rest s htry,
            ih rest s g (by omega) (by omega)]

theorem runSub_nil {μ σ : Type} (tryM : List Char → Option (μ × List Char))
    (handler : σ → μ → List Char × σ) (s : σ) : runSub tryM handler [] s = ([], s) := rfl

theorem runSub_cons_none {μ σ : Type} (tryM : List Char → Option (μ × List Char))
    (handler : σ → μ → List Char × σ) (c : Char) (rest : List Char) (s : σ)
    (h : tryM (c :: rest) = none) :
    runSub tryM handler (c :: rest) s =
      (c :: (runSub tryM handler rest s).1, (runSub tryM handler rest s).2) := by
  show subScan tryM handler (rest.length + 1) (c :: rest) s = _
  rw [subScan_succ_none tryM handler rest.length c rest s h]
  rfl

theorem runSub_append_no_starter {μ σ : Type} (tryM : List Char → Option (μ × List Char))
    (handler : σ → μ → List Char × σ) (starter : Char → Bool)
    (hstart : ∀ (c : Char) (l' : List Char) (m : μ) (r : List Char),
      tryM (c :: l') = some (m, r) → starter c = true) :
    ∀ pre : List Char, (∀ c ∈ pre, starter c = false) → ∀ (rest : List Char) (s : σ),
      runSub tryM handler (pre ++ rest) s =
        (pre ++ (runSub tryM handler rest s).1, (runSub tryM handler rest s).2) := by
  intro pre
  induction pre with
  | nil =>
    intro _ rest s
    rw [List.nil_append, List.nil_append]
  | cons ch pre' ih =>
    intro hns rest s
    rw [List.cons_append]
    have hnone : tryM (ch :: (pre' ++ rest)) = none := by
      cases htry : tryM (ch :: (pre' ++ rest)) with
      | none => rfl
      | some pr =>
        exfalso
        obtain ⟨m, r⟩ := pr
        have ht := hstart ch _ m r htry
        have hf := hns ch (List.mem_cons_self _ _)
        rw [hf] at ht
        cases ht
    rw [runSub_cons_none tryM handler ch (pre' ++ rest) s hnone,
      ih (fun c hc => hns c (List.mem_cons_of_mem _ hc)) rest s, List.cons_append]

theorem runSub_match {μ σ : Type} (tryM : List Char → Option (μ × List Char))
    (handler : σ → μ → List Char × σ)
    (hconsume : ∀ (l : List Char) (m : μ) (r : List Char),
      tryM l = some (m, r) → r.length < l.length)
    (l : List Char) (m : μ) (rest2 : List Char) (s : σ) (h : tryM l = some (m, rest2)) :
    runSub tryM handler l s =
      ((handler s m).1 ++ (runSub tryM handler rest2 (handler s m).2).1,
        (runSub tryM handler rest2 (handler s m).2).2) := by
  match l with
  | [] => exact absurd (hconsume [] m rest2 h) (by simp)
  | c :: rest =>
    show subScan tryM handler (rest.length + 1) (c :: rest) s = _
    rw [subScan_succ_match tryM handler rest.length c rest s m rest2 h]
    have hlt := hconsume _ m rest2 h
    rw [List.length_cons] at hlt
    rw [subScan_adequate tryM handler hconsume rest.length rest2 (handler s m).2 rest2.length
      (by omega) le_rfl]
    rfl

theorem runSub_no_match {μ σ : Type} (tryM : List Char → Option (μ × List Char))
    (handler : σ → μ → List Char × σ) :
    ∀ (l : List Char) (s : σ), (∀ i, tryM (l.drop i) = none) →
      runSub tryM handler l s = (l, s) := by
  intro l
  induction l with
  | nil => intro s _; rfl
  | cons c rest ih =>
    intro s hno
    have h0 : tryM (c :: rest) = none := by
      have := hno 0
      rwa [List.drop_zero] at this
    rw [runSub_cons_none tryM handler c rest s h0,
      ih s (fun i => by have := hno (i + 1); rwa [List.drop_succ_cons] at this)]

theorem subScan_state {μ σ : Type} (tryM : List Char → Option (μ × List Char))
    (handler : σ → μ → List Char × σ) (R : σ → σ → Prop)
    (hrefl : ∀ s, R s s) (htrans : ∀ a b c, R a b → R b c → R a c)
    (hstep : ∀ s m, R s (handler s m).2) :
    ∀ (f : Nat) (l : List Char) (s : σ), R s (subScan tryM handler f l s).2 := by
  intro f
  induction f with
  | zero => intro l s; exact hrefl s
  | succ f ih =>
    intro l s
    match l with
    | [] => exact hrefl s
    | c :: rest =>
      cases htry : tryM (c :: rest) with
      | some pr =>
        obtain ⟨m, rest2⟩ := pr
        rw [subScan_succ_match tryM handler f c rest s m rest2 htry]
        exact htrans _ _ _ (hstep s m) (ih rest2 (handler s m).2)
      | none =>
        rw [subScan_succ_none tryM handler f c rest s htry]
        exact ih rest s

/-! ## Mermaid extraction -/

theorem string_append_left_cancel {a b c : String} (h : a ++ b = a ++ c) : b = c := by
  have hd := congrArg String.data h
  simp only [String.data_append] at hd
  exact String.ext (List.append_cancel_left hd)

theorem findClose_nil : findClose [] = none := rfl

theorem findClose_cons (c : Char) (rest : List Char) :
    findClose (c :: rest) =
      if startsBT3 (c :: rest) then some ([], (c :: rest).drop 3)
      else (findClose rest).map fun p => (c :: p.1, p.2) := rfl

theorem startsBT3_false_of_ne {c : Char} (rest : List Char) (h : c ≠ backtick) :
    startsBT3 (c :: rest) = false := by
  show ((c :: rest).take 3 == "```".data) = false
  rw [beq_eq_false_iff_ne]
  intro hcon
  rw [List.take_succ_cons] at hcon
  have hd : (("```".data : List Char)).head? = some backtick := by decide
  rw [← hcon] at hd
  injection hd with h1
  exact h h1

theorem findClose_at_close :
    ∀ (body post : List Char), backtick ∉ body →
      findClose (body ++ bt3 post) = some (body, post) := by
  intro body
  induction body with
  | nil =>
    intro post _
    rw [List.nil_append, bt3, findClose_cons]
    have hbt : startsBT3 (backtick :: backtick :: backtick :: post) = true := by
      show ((backtick :: backtick :: backtick :: post).take 3 == "```".data) = true
      rw [List.take_succ_cons, List.take_succ_cons, List.take_succ_cons, List.take_zero]
      decide
    rw [if_pos hbt]
    rfl
  | cons ch b' ih =>
    intro post hmem
    have hch : ch ≠ backtick := fun hh => hmem (hh ▸ List.mem_cons_self _ _)
    rw [List.cons_append, findClose_cons]
    have hbf := startsBT3_false_of_ne (b' ++ bt3 post) hch
    rw [if_neg (by rw [hbf]; exact Bool.false_ne_true),
      ih post (fun hh => hmem (List.mem_cons_of_mem _ hh))]
    rfl

theorem findClose_sound :
    ∀ (l body post : List Char), findClose l = some (body, post) → l = body ++ bt3 post := by
  intro l
  induction l with
  | nil => intro body post h; cases h
  | cons c rest ih =>
    intro body post h
    rw [findClose_cons] at h
    by_cases hbt : startsBT3 (c :: rest) = true
    · rw [if_pos hbt] at h
      injection h with h'
      have hbody : body = [] := (congrArg Prod.fst h').symm
      have hpost : post = (c :: rest).drop 3 := (congrArg Prod.snd h').symm
      subst hbody
      subst hpost
      rw [List.nil_append, bt3]
      have htake : (c :: rest).take 3 = backtick :: backtick :: backtick :: [] := by
        have hx := eq_of_beq hbt
        have hdata : ("```".data : List Char) = backtick :: backtick :: backtick :: [] := by
          decide
        rw [hdata] at hx
        exact hx
      conv_lhs => rw [← List.take_append_drop 3 (c :: rest), htake]
      rfl
    · rw [if_neg hbt] at h
      cases hfc : findClose rest with
      | none => rw [hfc] at h; cases h
      | some pr =>
        obtain ⟨b', post'⟩ := pr
        rw [hfc] at h
        injection h with h'
        have hb : body = c :: b' := (congrArg Prod.fst h').symm
        have hp : post = post' := (congrArg Prod.snd h').symm
        subst hb
        subst hp
        rw [List.cons_append, ← ih b' post hfc]

theorem tryMermaid_sound (l m r : List Char) (h : tryMermaid l = some (m, r)) :
    l = mermaidOpen ++ (m ++ bt3 r) := by
  cases hsp : stripPrefixL mermaidOpen l with
  | none =>
    simp only [tryMermaid] at h
    rw [hsp] at h
    exact Option.noConfusion h
  | some r1 =>
    simp only [tryMermaid] at h
    rw [hsp] at h
    rw [stripPrefixL_sound mermaidOpen l r1 hsp, findClose_sound r1 m r h]

theorem tryMermaid_consume (l : List Char) (m r : List Char)
    (h : tryMermaid l = some (m, r)) : r.length < l.length := by
  have hs := tryMermaid_sound l m r h
  have hopen : (mermaidOpen : List Char).length = 11 := by decide
  rw [hs]
  simp only [List.length_append, bt3, List.length_cons]
  omega

theorem tryMermaid_at_fence (body post : List Char) (h : backtick ∉ body) :
    tryMermaid (mermaidOpen ++ (body ++ bt3 post)) = some (body, post) := by
  simp only [tryMermaid, stripPrefixL_self_append]
  exact findClose_at_close body post h

theorem tryMermaid_starter (c : Char) (l' : List Char) (m r : List Char)
    (h : tryMermaid (c :: l') = some (m, r)) : c = backtick := by
  have hs := tryMermaid_sound _ m r h
  have hhead : (c :: l').head? = some backtick := by
    rw [hs]
    have hopen : (mermaidOpen : List Char) = backtick :: "``mermaid\n".data := by decide
    rw [hopen]
    rfl
  injection hhead

theorem tryMermaid_startsBT3 (l : List Char) (m r : List Char)
    (h : tryMermaid l = some (m, r)) : mermaidOpen <+: l :=
  ⟨m ++ bt3 r, (tryMermaid_sound l m r h).symm⟩

theorem replace_mermaid_eq (h : String → String) (ds : List DiagramRef) (body : String) :
    replace_mermaid h ds body.data =
      ((diagramMarker (mermaidName h body)).data, ds ++ [mermaidEntry h body]) := rfl

theorem runSub_mermaid_skip (h : String → String) (pre : List Char) (hpre : backtick ∉ pre)
    (rest : List Char) (s : List DiagramRef) :
    runSub tryMermaid (replace_mermaid h) (pre ++ rest) s =
      (pre ++ (runSub tryMermaid (replace_mermaid h) rest s).1,
        (runSub tryMermaid (replace_mermaid h) rest s).2) := by
  refine runSub_append_no_starter tryMermaid (replace_mermaid h) (fun c => c == backtick)
    ?_ pre ?_ rest s
  · intro c l' m r htry
    rw [beq_iff_eq]
    exact tryMermaid_starter c l' m r htry
  · intro c hc
    rw [beq_eq_false_iff_ne]
    exact fun hh => hpre (hh ▸ hc)

theorem runSub_mermaid_block (h : String → String) (body : String) (rest : List Char)
    (hbody : backtick ∉ body.data) (s : List DiagramRef) :
    runSub tryMermaid (replace_mermaid h) (mermaidOpen ++ (body.data ++ bt3 rest)) s =
      ((diagramMarker (mermaidName h body)).data ++
          (runSub tryMermaid (replace_mermaid h) rest (s ++ [mermaidEntry h body])).1,
        (runSub tryMermaid (replace_mermaid h) rest (s ++ [mermaidEntry h body])).2) := by
  rw [runSub_match tryMermaid (replace_mermaid h) tryMermaid_consume _ body.data rest s
    (tryMermaid_at_fence body.data rest hbody), replace_mermaid_eq]

theorem runSub_mermaid_all_skip (h : String → String) (l : List Char) (hl : backtick ∉ l)
    (s : List DiagramRef) : runSub tryMermaid (replace_mermaid h) l s = (l, s) := by
  apply runSub_no_match
  intro i
  cases hd : l.drop i with
  | nil => rfl
  | cons c rest =>
    cases htry : tryMermaid (c :: rest) with
    | none => rfl
    | some pr =>
      exfalso
      obtain ⟨m, r⟩ := pr
      have hc := tryMermaid_starter c rest m r htry
      have hcl : c ∈ l := by
        have : c ∈ l.drop i := by rw [hd]; exact List.mem_cons_self _ _
        exact (List.drop_subset i l) this
      exact hl (hc ▸ hcl)

/-- **C6**: `extract_mermaid_diagrams` replaces every mermaid fenced block —
fences included — with a `[DIAGRAM:name]` marker line surrounded by
newlines, where `name = "mermaid_" ++` the 8-hex-character digest of the
stripped block body: on a document with two identical blocks and one
different block, the two identical ones get equal names/entries, the
different one a different name (given its digest differs), the output
contains exactly one marker per block with no residual fences of consumed
blocks; and any input containing no occurrence of the opening fence token —
in particular one whose fenced blocks are all non-mermaid — is returned
completely untouched with no diagram recorded. -/
theorem extract_mermaid_diagrams_spec (h : String → String)
    (pre mid1 mid2 post b c : String)
    (hpre : backtick ∉ pre.data) (hmid1 : backtick ∉ mid1.data)
    (hmid2 : backtick ∉ mid2.data) (hpost : backtick ∉ post.data)
    (hb : backtick ∉ b.data) (hc : backtick ∉ c.data)
    (hneq : h (pyStrip b) ≠ h (pyStrip c)) :
    extract_mermaid_diagrams h
        (pre ++ mermaidFence b ++ mid1 ++ mermaidFence b ++ mid2 ++ mermaidFence c ++ post) =
      (pre ++ diagramMarker (mermaidName h b) ++ mid1 ++ diagramMarker (mermaidName h b) ++
        mid2 ++ diagramMarker (mermaidName h c) ++ post,
       [mermaidEntry h b, mermaidEntry h b, mermaidEntry h c]) ∧
    mermaidName h b ≠ mermaidName h c ∧
    ∀ s : String, (∀ i, ¬ (mermaidOpen <+: s.data.drop i)) →
      extract_mermaid_diagrams h s = (s, []) := by
  refine ⟨?_, ?_, ?_⟩
  · have hbt3 : ∀ X : List Char, ("```".data : List Char) ++ X = bt3 X := by
      intro X
      rfl
    have hbt3app : ∀ X Y : List Char, bt3 X ++ Y = bt3 (X ++ Y) := by
      intro X Y
      simp [bt3]
    have hdata :
        (pre ++ mermaidFence b ++ mid1 ++ mermaidFence b ++ mid2 ++ mermaidFence c ++ post).data
          = pre.data ++ (mermaidOpen ++ (b.data ++ bt3 (mid1.data ++ (mermaidOpen ++
              (b.data ++ bt3 (mid2.data ++ (mermaidOpen ++ (c.data ++ bt3 post.data)))))))) := by
      simp only [mermaidFence, String.data_append, List.append_assoc, hbt3, hbt3app, mermaidOpen]
    simp only [extract_mermaid_diagrams, hdata]
    rw [runSub_mermaid_skip h pre.data hpre, runSub_mermaid_block h b _ hb,
      runSub_mermaid_skip h mid1.data hmid1, runSub_mermaid_block h b _ hb,
      runSub_mermaid_skip h mid2.data hmid2, runSub_mermaid_block h c _ hc,
      runSub_mermaid_all_skip h post.data hpost]
    rw [Prod.ext_iff]
    constructor
    · apply String.ext
      show pre.data ++ _ = _
      simp only [String.data_append, List.append_assoc]
    · simp
  · intro hcon
    have hcon' : "mermaid_" ++ h (pyStrip b) = "mermaid_" ++ h (pyStrip c) := hcon
    exact hneq (string_append_left_cancel hcon')
  · intro s hs
    have hno : ∀ i, tryMermaid (s.data.drop i) = none := by
      intro i
      cases htry : tryMermaid (s.data.drop i) with
      | none => rfl
      | some pr =>
        obtain ⟨m, r⟩ := pr
        exact absurd (tryMermaid_startsBT3 _ m r htry) (hs i)
    simp only [extract_mermaid_diagrams]
    rw [runSub_no_match tryMermaid (replace_mermaid h) s.data [] hno]

theorem extract_mermaid_diagrams_spec_witness :
    extract_mermaid_diagrams (fun s => s)
        ("A" ++ mermaidFence "x" ++ "B" ++ mermaidFence "x" ++ "C" ++ mermaidFence "y" ++ "D") =
      ("A" ++ diagramMarker (mermaidName (fun s => s) "x") ++ "B" ++
        diagramMarker (mermaidName (fun s => s) "x") ++ "C" ++
        diagramMarker (mermaidName (fun s => s) "y") ++ "D",
       [mermaidEntry (fun s => s) "x", mermaidEntry (fun s => s) "x",
        mermaidEntry (fun s => s) "y"]) ∧
    mermaidName (fun s => s) "x" ≠ mermaidName (fun s => s) "y" ∧
    ∀ s : String, (∀ i, ¬ (mermaidOpen <+: s.data.drop i)) →
      extract_mermaid_diagrams (fun s => s) s = (s, []) :=
  extract_mermaid_diagrams_spec (fun s => s) "A" "B" "C" "D" "x" "y"
    (by decide) (by decide) (by decide) (by decide) (by decide) (by decide) (by decide)

/-! ## Local image extraction: pattern lemmas -/

theorem tryMdImage_nil : tryMdImage [] = none := rfl

theorem tryMdImage_one (c : Char) : tryMdImage [c] = none := rfl

theorem tryMdImage_cons2 (c1 c2 : Char) (r1 : List Char) :
    tryMdImage (c1 :: c2 :: r1) =
      if c1 = '!' ∧ c2 = '[' then
        mdAfterAlt (r1.takeWhile (fun c => c != ']')) (r1.dropWhile (fun c => c != ']'))
      else none := rfl

theorem mdAfterAlt_nil (alt : List Char) : mdAfterAlt alt [] = none := rfl

theorem mdAfterAlt_one (alt : List Char) (c : Char) : mdAfterAlt alt [c] = none := rfl

theorem mdAfterAlt_cons2 (alt : List Char) (c1 c2 : Char) (r3 : List Char) :
    mdAfterAlt alt (c1 :: c2 :: r3) =
      if c1 = ']' ∧ c2 = '(' then mdPathSpan alt r3 else none := rfl

theorem mdPathSpan_eq (alt r3 : List Char) :
    mdPathSpan alt r3 =
      mdPathClose alt (r3.takeWhile (fun c => c != ')')) (r3.dropWhile (fun c => c != ')')) := rfl

theorem mdPathClose_nil (alt path : List Char) : mdPathClose alt path [] = none := rfl

theorem mdPathClose_cons (alt path : List Char) (c : Char) (r5 : List Char) :
    mdPathClose alt path (c :: r5) =
      if c = ')' ∧ path ≠ [] then some ((alt, path), r5) else none := rfl

theorem tryMdImage_starter (c : Char) (l' : List Char) (m : List Char × List Char)
    (r : List Char) (h : tryMdImage (c :: l') = some (m, r)) : c = '!' := by
  match l' with
  | [] => rw [tryMdImage_one] at h; cases h
  | c2 :: r1 =>
    rw [tryMdImage_cons2] at h
    by_cases hc : c = '!' ∧ c2 = '['
    · exact hc.1
    · rw [if_neg hc] at h
      cases h

theorem tryMdImage_sound (l : List Char) (alt path rest : List Char)
    (h : tryMdImage l = some ((alt, path), rest)) :
    l = '!' :: '[' :: (alt ++ ']' :: '(' :: (path ++ ')' :: rest)) ∧
      ']' ∉ alt ∧ ')' ∉ path ∧ path ≠ [] := by
  match l with
  | [] => rw [tryMdImage_nil] at h; cases h
  | [c] => rw [tryMdImage_one] at h; cases h
  | c1 :: c2 :: r1 =>
    rw [tryMdImage_cons2] at h
    by_cases h12 : c1 = '!' ∧ c2 = '['
    · rw [if_pos h12] at h
      obtain ⟨h1, h2⟩ := h12
      subst h1
      subst h2
      cases hdw : r1.dropWhile (fun c => c != ']') with
      | nil => rw [hdw, mdAfterAlt_nil] at h; cases h
      | cons d1 dtl =>
        cases dtl with
        | nil => rw [hdw, mdAfterAlt_one] at h; cases h
        | cons d2 r3 =>
          rw [hdw, mdAfterAlt_cons2] at h
          by_cases hd : d1 = ']' ∧ d2 = '('
          · rw [if_pos hd] at h
            obtain ⟨hd1, hd2⟩ := hd
            subst hd1
            subst hd2
            rw [mdPathSpan_eq] at h
            cases hpc : r3.dropWhile (fun c => c != ')') with
            | nil => rw [hpc, mdPathClose_nil] at h; cases h
            | cons e1 r5 =>
              rw [hpc, mdPathClose_cons] at h
              by_cases he : e1 = ')' ∧ r3.takeWhile (fun c => c != ')') ≠ []
              · rw [if_pos he] at h
                obtain ⟨he1, hpne⟩ := he
                subst he1
                injection h with h'
                have hpair : (r1.takeWhile (fun c => c != ']'),
                    r3.takeWhile (fun c => c != ')')) = (alt, path) :=
                  congrArg Prod.fst h'
                have halt : alt = r1.takeWhile (fun c => c != ']') :=
                  (congrArg Prod.fst hpair).symm
                have hpath : path = r3.takeWhile (fun c => c != ')') :=
                  (congrArg Prod.snd hpair).symm
                have hrest : rest = r5 := (congrArg Prod.snd h').symm
                subst halt
                subst hpath
                subst hrest
                refine ⟨?_, ?_, ?_, hpne⟩
                · have hr1 : r1 = r1.takeWhile (fun c => c != ']') ++
                      r1.dropWhile (fun c => c != ']') :=
                    (List.takeWhile_append_dropWhile _ _).symm
                  have hr3 : r3 = r3.takeWhile (fun c => c != ')') ++
                      r3.dropWhile (fun c => c != ')') :=
                    (List.takeWhile_append_dropWhile _ _).symm
                  conv_lhs => rw [hr1, hdw]
                  conv_lhs => rw [hr3, hpc]
                · intro hm
                  have := List.mem_takeWhile_imp hm
                  simp at this
                · intro hm
                  have := List.mem_takeWhile_imp hm
                  simp at this
              · rw [if_neg he] at h
                cases h
          · rw [if_neg hd] at h
            cases h
    · rw [if_neg h12] at h
      cases h

theorem tryMdImage_consume (l : List Char) (m : List Char × List Char) (r : List Char)
    (h : tryMdImage l = some (m, r)) : r.length < l.length := by
  obtain ⟨alt, path⟩ := m
  obtain ⟨hstruct, -, -, -⟩ := tryMdImage_sound l alt path r h
  rw [hstruct]
  simp only [List.length_cons, List.length_append]
  omega

theorem tryMdImage_at_ref (alt path rest : List Char)
    (halt : ']' ∉ alt) (hpath : ')' ∉ path) (hne : path ≠ []) :
    tryMdImage ('!' :: '[' :: (alt ++ ']' :: '(' :: (path ++ ')' :: rest))) =
      some ((alt, path), rest) := by
  rw [tryMdImage_cons2, if_pos ⟨rfl, rfl⟩]
  have htw : (alt ++ ']' :: '(' :: (path ++ ')' :: rest)).takeWhile (fun c => c != ']') = alt :=
    takeWhile_append_sat _ alt ']' _
      (fun a ha => by simp only [bne_iff_ne]; exact fun hh => halt (hh ▸ ha))
      (by decide)
  have hdw : (alt ++ ']' :: '(' :: (path ++ ')' :: rest)).dropWhile (fun c => c != ']') =
      ']' :: '(' :: (path ++ ')' :: rest) :=
    dropWhile_append_sat _ alt ']' _
      (fun a ha => by simp only [bne_iff_ne]; exact fun hh => halt (hh ▸ ha))
      (by decide)
  rw [htw, hdw, mdAfterAlt_cons2, if_pos ⟨rfl, rfl⟩, mdPathSpan_eq]
  have htw2 : (path ++ ')' :: rest).takeWhile (fun c => c != ')') = path :=
    takeWhile_append_sat _ path ')' rest
      (fun a ha => by simp only [bne_iff_ne]; exact fun hh => hpath (hh ▸ ha))
      (by decide)
  have hdw2 : (path ++ ')' :: rest).dropWhile (fun c => c != ')') = ')' :: rest :=
    dropWhile_append_sat _ path ')' rest
      (fun a ha => by simp only [bne_iff_ne]; exact fun hh => hpath (hh ▸ ha))
      (by decide)
  rw [htw2, hdw2, mdPathClose_cons, if_pos ⟨rfl, hne⟩]

theorem tryInlineImage_nil : tryInlineImage [] = none := rfl

theorem tryInlineImage_cons (c : Char) (r1 : List Char) :
    tryInlineImage (c :: r1) =
      if c = backtick then
        inlineClose (r1.takeWhile (fun ch => ch != backtick))
          (r1.dropWhile (fun ch => ch != backtick))
      else none := rfl

theorem inlineClose_nil (inner : List Char) : inlineClose inner [] = none := rfl

theorem inlineClose_cons (inner : List Char) (c : Char) (r3 : List Char) :
    inlineClose inner (c :: r3) =
      if c = backtick ∧ innerHasImageExt inner then some (inner, r3) else none := rfl

theorem tryInlineImage_starter (c : Char) (l' : List Char) (m r : List Char)
    (h : tryInlineImage (c :: l') = some (m, r)) : c = backtick := by
  rw [tryInlineImage_cons] at h
  by_cases hc : c = backtick
  · exact hc
  · rw [if_neg hc] at h
    cases h

theorem tryInlineImage_sound (l : List Char) (inner rest : List Char)
    (h : tryInlineImage l = some (inner, rest)) :
    l = backtick :: (inner ++ backtick :: rest) := by
  match l with
  | [] => rw [tryInlineImage_nil] at h; cases h
  | c :: r1 =>
    rw [tryInlineImage_cons] at h
    by_cases hc : c = backtick
    · rw [if_pos hc] at h
      subst hc
      cases hdw : r1.dropWhile (fun ch => ch != backtick) with
      | nil => rw [hdw, inlineClose_nil] at h; cases h
      | cons d1 r3 =>
        rw [hdw, inlineClose_cons] at h
        by_cases hd : d1 = backtick ∧ innerHasImageExt (r1.takeWhile (fun ch => ch != backtick))
        · rw [if_pos hd] at h
          injection h with h'
          have hi : inner = r1.takeWhile (fun ch => ch != backtick) :=
            (congrArg Prod.fst h').symm
          have hr : rest = r3 := (congrArg Prod.snd h').symm
          subst hi
          subst hr
          have hr1 : r1 = r1.takeWhile (fun ch => ch != backtick) ++
              r1.dropWhile (fun ch => ch != backtick) :=
            (List.takeWhile_append_dropWhile _ _).symm
          conv_lhs => rw [hr1, hdw, hd.1]
        · rw [if_neg hd] at h
          cases h
    · rw [if_neg hc] at h
      cases h

theorem tryInlineImage_consume (l : List Char) (m r : List Char)
    (h : tryInlineImage l = some (m, r)) : r.length < l.length := by
  have hstruct := tryInlineImage_sound l m r h
  rw [hstruct]
  simp only [List.length_cons, List.length_append]
  omega

/-! ## Local image extraction: pass-level lemmas -/

theorem runSub_md_skip (ctx : ImgCtx) (pre : List Char) (hpre : '!' ∉ pre)
    (rest : List Char) (s : List ImageRef) :
    runSub tryMdImage (mdImageHandler ctx) (pre ++ rest) s =
      (pre ++ (runSub tryMdImage (mdImageHandler ctx) rest s).1,
        (runSub tryMdImage (mdImageHandler ctx) rest s).2) := by
  refine runSub_append_no_starter tryMdImage (mdImageHandler ctx) (fun c => c == '!')
    ?_ pre ?_ rest s
  · intro c l' m r htry
    rw [beq_iff_eq]
    exact tryMdImage_starter c l' m r htry
  · intro c hc
    rw [beq_eq_false_iff_ne]
    exact fun hh => hpre (hh ▸ hc)

theorem runSub_inline_skip (ctx : ImgCtx) (pre : List Char) (hpre : backtick ∉ pre)
    (rest : List Char) (s : List ImageRef) :
    runSub tryInlineImage (inlineImageHandler ctx) (pre ++ rest) s =
      (pre ++ (runSub tryInlineImage (inlineImageHandler ctx) rest s).1,
        (runSub tryInlineImage (inlineImageHandler ctx) rest s).2) := by
  refine runSub_append_no_starter tryInlineImage (inlineImageHandler ctx) (fun c => c == backtick)
    ?_ pre ?_ rest s
  · intro c l' m r htry
    rw [beq_iff_eq]
    exact tryInlineImage_starter c l' m r htry
  · intro c hc
    rw [beq_eq_false_iff_ne]
    exact fun hh => hpre (hh ▸ hc)

theorem runSub_inline_all_skip (ctx : ImgCtx) (l : List Char) (hl : backtick ∉ l)
    (s : List ImageRef) : runSub tryInlineImage (inlineImageHandler ctx) l s = (l, s) := by
  apply runSub_no_match
  intro i
  cases hd : l.drop i with
  | nil => rfl
  | cons c rest =>
    cases htry : tryInlineImage (c :: rest) with
    | none => rfl
    | some pr =>
      exfalso
      obtain ⟨m, r⟩ := pr
      have hc := tryInlineImage_starter c rest m r htry
      have hcl : c ∈ l := by
        have hmem : c ∈ l.drop i := by rw [hd]; exact List.mem_cons_self _ _
        exact (List.drop_subset i l) hmem
      exact hl (hc ▸ hcl)

theorem replace_md_image_skip (ctx : ImgCtx) (imgs : List ImageRef) (alt path : String)
    (hskip : startsWithStr "http://" path = true ∨ startsWithStr "https://" path = true ∨
      startsWithStr "//" path = true ∨
      ctx.fsExists (ctx.resolve (joinPath ctx.sourceDir path)) = false ∨
      imageDotExts.contains
        (strLower (pathSuffix (ctx.resolve (joinPath ctx.sourceDir path)))) = false) :
    replace_md_image ctx imgs alt path = ("![" ++ alt ++ "](" ++ path ++ ")", imgs) := by
  by_cases hurl : (startsWithStr "http://" path || startsWithStr "https://" path ||
      startsWithStr "//" path) = true
  · rw [replace_md_image, if_pos hurl]
  · rw [replace_md_image, if_neg hurl]
    have hcond : (ctx.fsExists (ctx.resolve (joinPath ctx.sourceDir path)) &&
        imageDotExts.contains
          (strLower (pathSuffix (ctx.resolve (joinPath ctx.sourceDir path))))) = false := by
      rcases hskip with h | h | h | h | h
      · exact absurd (by rw [h]; simp) hurl
      · exact absurd (by rw [h]; simp) hurl
      · exact absurd (by rw [h]; simp) hurl
      · rw [h]
        simp
      · rw [h]
        simp
    rw [if_neg (by rw [hcond]; exact Bool.false_ne_true)]

theorem mdImageHandler_skip (ctx : ImgCtx) (imgs : List ImageRef) (alt path : String)
    (hskip : startsWithStr "http://" path = true ∨ startsWithStr "https://" path = true ∨
      startsWithStr "//" path = true ∨
      ctx.fsExists (ctx.resolve (joinPath ctx.sourceDir path)) = false ∨
      imageDotExts.contains
        (strLower (pathSuffix (ctx.resolve (joinPath ctx.sourceDir path)))) = false) :
    mdImageHandler ctx imgs (alt.data, path.data) =
      (("![" ++ alt ++ "](" ++ path ++ ")").data, imgs) := by
  show ((replace_md_image ctx imgs alt path).1.data, (replace_md_image ctx imgs alt path).2) = _
  rw [replace_md_image_skip ctx imgs alt path hskip]

theorem mdRefData (alt path : String) (rest : List Char) :
    ("![" ++ alt ++ "](" ++ path ++ ")").data ++ rest =
      '!' :: '[' :: (alt.data ++ ']' :: '(' :: (path.data ++ ')' :: rest)) := by
  have h1 : ("![" : String).data = ['!', '['] := by decide
  have h2 : ("](" : String).data = [']', '('] := by decide
  have h3 : (")" : String).data = [')'] := by decide
  simp only [String.data_append, h1, h2, h3, List.append_assoc, List.cons_append,
    List.nil_append, List.singleton_append]

/-- **C7**: a markdown image reference whose path is an absolute network
URL, or whose resolved path does not exist, or whose resolved path lacks a
recognized image suffix, is left textually untouched by
`extract_local_images` and contributes no `ImageRef` record (the function is
total, so no such reference can raise): extracting
`pre ++ "![alt](path)" ++ post` equals the untouched reference spliced
around the extraction of `post` alone, with exactly `post`'s records. -/
theorem extract_local_images_skip (ctx : ImgCtx) (alt path pre post : String)
    (hpre1 : '!' ∉ pre.data) (hpre2 : backtick ∉ pre.data)
    (halt1 : ']' ∉ alt.data) (halt2 : backtick ∉ alt.data)
    (hpath1 : ')' ∉ path.data) (hpath2 : backtick ∉ path.data) (hpathne : path.data ≠ [])
    (hskip : startsWithStr "http://" path = true ∨ startsWithStr "https://" path = true ∨
      startsWithStr "//" path = true ∨
      ctx.fsExists (ctx.resolve (joinPath ctx.sourceDir path)) = false ∨
      imageDotExts.contains
        (strLower (pathSuffix (ctx.resolve (joinPath ctx.sourceDir path)))) = false) :
    extract_local_images ctx (pre ++ "![" ++ alt ++ "](" ++ path ++ ")" ++ post) =
      (pre ++ "![" ++ alt ++ "](" ++ path ++ ")" ++ (extract_local_images ctx post).1,
        (extract_local_images ctx post).2) := by
  have hmk : ∀ l : List Char, (⟨l⟩ : String).data = l := fun _ => rfl
  have hshape : (pre ++ "![" ++ alt ++ "](" ++ path ++ ")" ++ post).data =
      pre.data ++ ('!' :: '[' :: (alt.data ++ ']' :: '(' :: (path.data ++ ')' :: post.data))) := by
    have h1 : ("![" : String).data = ['!', '['] := by decide
    have h2 : ("](" : String).data = [']', '('] := by decide
    have h3 : (")" : String).data = [')'] := by decide
    simp only [String.data_append, h1, h2, h3, List.append_assoc, List.cons_append,
      List.nil_append, List.singleton_append]
  have horig : backtick ∉ ("![" ++ alt ++ "](" ++ path ++ ")").data := by
    have hsh := mdRefData alt path []
    rw [List.append_nil] at hsh
    rw [hsh]
    intro hmem
    simp only [List.mem_cons, List.mem_append] at hmem
    rcases hmem with h | h | h
    · exact absurd h (by decide)
    · exact absurd h (by decide)
    · rcases h with h | h
      · exact halt2 h
      · rcases h with h | h
        · exact absurd h (by decide)
        · rcases h with h | h
          · exact absurd h (by decide)
          · rcases h with h | h
            · exact hpath2 h
            · rcases h with h | h
              · exact absurd h (by decide)
              · cases h
  -- pass 1
  have hA : runSub tryMdImage (mdImageHandler ctx)
        (pre.data ++ ('!' :: '[' :: (alt.data ++ ']' :: '(' :: (path.data ++ ')' :: post.data))))
        [] =
      (pre.data ++ (("![" ++ alt ++ "](" ++ path ++ ")").data ++
          (runSub tryMdImage (mdImageHandler ctx) post.data []).1),
        (runSub tryMdImage (mdImageHandler ctx) post.data []).2) := by
    rw [runSub_md_skip ctx pre.data hpre1,
      runSub_match tryMdImage (mdImageHandler ctx) tryMdImage_consume _ (alt.data, path.data)
        post.data [] (tryMdImage_at_ref alt.data path.data post.data halt1 hpath1 hpathne),
      mdImageHandler_skip ctx [] alt path hskip]
  -- assemble
  simp only [extract_local_images, hshape, hA]
  rw [runSub_inline_skip ctx pre.data hpre2,
    runSub_inline_skip ctx ("![" ++ alt ++ "](" ++ path ++ ")").data horig]
  rw [Prod.ext_iff]
  constructor
  · apply String.ext
    simp only [hmk, String.data_append, List.append_assoc]
  · rfl

theorem extract_local_images_skip_witness :
    extract_local_images imgCtxC ("pre " ++ "![" ++ "a" ++ "](" ++ "missing.png" ++ ")" ++ " post") =
      ("pre " ++ "![" ++ "a" ++ "](" ++ "missing.png" ++ ")" ++
          (extract_local_images imgCtxC " post").1,
        (extract_local_images imgCtxC " post").2) :=
  extract_local_images_skip imgCtxC "a" "missing.png" "pre " " post"
    (by decide) (by decide) (by decide) (by decide) (by decide) (by decide) (by decide) (by decide)

/-! ## Local image extraction: accumulator-state lemmas -/

theorem replace_md_image_state (ctx : ImgCtx) (imgs : List ImageRef) (alt path : String) :
    (replace_md_image ctx imgs alt path).2 = imgs ∨
      ∃ img, (replace_md_image ctx imgs alt path).2 = imgs ++ [img] ∧
        img.name = "image_" ++ ctx.md5hex8 img.path := by
  unfold replace_md_image
  split
  · left
    rfl
  · split
    · right
      exact ⟨⟨"image_" ++ ctx.md5hex8 (ctx.resolve (joinPath ctx.sourceDir path)),
        pathStem (ctx.resolve (joinPath ctx.sourceDir path)),
        ctx.resolve (joinPath ctx.sourceDir path), alt⟩, rfl, rfl⟩
    · left
      rfl

theorem mdImageHandler_state (ctx : ImgCtx) (s : List ImageRef) (m : List Char × List Char) :
    (mdImageHandler ctx s m).2 = s ∨
      ∃ img, (mdImageHandler ctx s m).2 = s ++ [img] ∧
        img.name = "image_" ++ ctx.md5hex8 img.path :=
  replace_md_image_state ctx s ⟨m.1⟩ ⟨m.2⟩

theorem inlineFound_state (ctx : ImgCtx) (s : List ImageRef) (filename full_path : String) :
    (inlineFound ctx s filename full_path).2 = s ∨
      ∃ img, (inlineFound ctx s filename full_path).2 = s ++ [img] ∧
        img.name = "image_" ++ ctx.md5hex8 img.path ∧
        ∀ i ∈ s, i.path ≠ img.path := by
  unfold inlineFound
  cases hfind : s.find? (fun img => img.path == full_path) with
  | some img0 =>
    left
    rfl
  | none =>
    right
    refine ⟨⟨"image_" ++ ctx.md5hex8 full_path, pathStem full_path, full_path, filename⟩,
      rfl, rfl, ?_⟩
    intro i hi
    have hne := List.find?_eq_none.mp hfind i hi
    simp only [beq_iff_eq] at hne
    exact hne

theorem replace_inline_state (ctx : ImgCtx) (s : List ImageRef) (inner : String) :
    (replace_inline_image_ref ctx s inner).2 = s ∨
      ∃ img, (replace_inline_image_ref ctx s inner).2 = s ++ [img] ∧
        img.name = "image_" ++ ctx.md5hex8 img.path ∧
        ∀ i ∈ s, i.path ≠ img.path := by
  unfold replace_inline_image_ref
  split
  · left
    rfl
  · cases hfe : firstExisting ctx (searchPaths ctx (pyStrip inner)) with
    | none =>
      left
      rfl
    | some full_path =>
      exact inlineFound_state ctx s (pyStrip inner) full_path

theorem inlineImageHandler_state (ctx : ImgCtx) (s : List ImageRef) (inner : List Char) :
    (inlineImageHandler ctx s inner).2 = s ∨
      ∃ img, (inlineImageHandler ctx s inner).2 = s ++ [img] ∧
        img.name = "image_" ++ ctx.md5hex8 img.path ∧
        ∀ i ∈ s, i.path ≠ img.path :=
  replace_inline_state ctx s ⟨inner⟩

theorem subScan_md_name_inv (ctx : ImgCtx) (f : Nat) (l : List Char) (s : List ImageRef)
    (hs : ∀ img ∈ s, img.name = "image_" ++ ctx.md5hex8 img.path) :
    ∀ img ∈ (subScan tryMdImage (mdImageHandler ctx) f l s).2,
      img.name = "image_" ++ ctx.md5hex8 img.path := by
  refine subScan_state tryMdImage (mdImageHandler ctx)
    (fun a b => (∀ img ∈ a, img.name = "image_" ++ ctx.md5hex8 img.path) →
      (∀ img ∈ b, img.name = "image_" ++ ctx.md5hex8 img.path))
    (fun _ h => h) (fun _ _ _ h1 h2 h => h2 (h1 h)) ?_ f l s hs
  intro s' m hP
  rcases mdImageHandler_state ctx s' m with h | ⟨img, heq, hname⟩
  · rw [h]
    exact hP
  · rw [heq]
    intro x hx
    rcases List.mem_append.mp hx with hx | hx
    · exact hP x hx
    · rw [List.mem_singleton.mp hx]
      exact hname

theorem subScan_inline_name_inv (ctx : ImgCtx) (f : Nat) (l : List Char) (s : List ImageRef)
    (hs : ∀ img ∈ s, img.name = "image_" ++ ctx.md5hex8 img.path) :
    ∀ img ∈ (subScan tryInlineImage (inlineImageHandler ctx) f l s).2,
      img.name = "image_" ++ ctx.md5hex8 img.path := by
  refine subScan_state tryInlineImage (inlineImageHandler ctx)
    (fun a b => (∀ img ∈ a, img.name = "image_" ++ ctx.md5hex8 img.path) →
      (∀ img ∈ b, img.name = "image_" ++ ctx.md5hex8 img.path))
    (fun _ h => h) (fun _ _ _ h1 h2 h => h2 (h1 h)) ?_ f l s hs
  intro s' inner hP
  rcases inlineImageHandler_state ctx s' inner with h | ⟨img, heq, hname, _⟩
  · rw [h]
    exact hP
  · rw [heq]
    intro x hx
    rcases List.mem_append.mp hx with hx | hx
    · exact hP x hx
    · rw [List.mem_singleton.mp hx]
      exact hname

theorem subScan_inline_dedup (ctx : ImgCtx) (f : Nat) (l : List Char) (s0 : List ImageRef) :
    ∃ tail, (subScan tryInlineImage (inlineImageHandler ctx) f l s0).2 = s0 ++ tail ∧
      tail.Pairwise (fun a b => a.path ≠ b.path) ∧
      ∀ a ∈ tail, ∀ i ∈ s0, a.path ≠ i.path := by
  refine subScan_state tryInlineImage (inlineImageHandler ctx)
    (fun a b => ∃ tail, b = a ++ tail ∧ tail.Pairwise (fun x y => x.path ≠ y.path) ∧
      ∀ x ∈ tail, ∀ i ∈ a, x.path ≠ i.path)
    (fun a => ⟨[], by rw [List.append_nil], List.Pairwise.nil, by simp⟩) ?_ ?_ f l s0
  · intro a b c hab hbc
    obtain ⟨t1, hb, pw1, d1⟩ := hab
    obtain ⟨t2, hc, pw2, d2⟩ := hbc
    refine ⟨t1 ++ t2, by rw [hc, hb, List.append_assoc], ?_, ?_⟩
    · rw [List.pairwise_append]
      refine ⟨pw1, pw2, ?_⟩
      intro x hx y hy
      exact (d2 y hy x (by rw [hb]; exact List.mem_append_right a hx)).symm
    · intro x hx i hi
      rcases List.mem_append.mp hx with hx | hx
      · exact d1 x hx i hi
      · exact d2 x hx i (by rw [hb]; exact List.mem_append_left t1 hi)
  · intro s' inner
    rcases inlineImageHandler_state ctx s' inner with h | ⟨img, heq, _, hdisj⟩
    · exact ⟨[], by rw [h, List.append_nil], List.Pairwise.nil, by simp⟩
    · refine ⟨[img], heq, List.pairwise_singleton _ _, ?_⟩
      intro x hx i hi
      rw [List.mem_singleton.mp hx]
      exact (hdisj i hi).symm

/-- **C2 (amended)**: every `ImageRef` the extractor records carries marker
name `"image_" ++ md5hex8(resolved absolute path)`, so records of the same
resolved path always share the same marker name; and the *inline-code* pass
deduplicates against the whole accumulated list (from either pass): starting
from any accumulated list it appends only records whose paths are pairwise
distinct and absent from that list, reusing the existing record's marker
name otherwise.  The markdown-image pass, however, appends one record per
extracted occurrence, so duplicate `![alt](path)` references to the same
resolved path yield duplicate records (see
`extract_local_images_dup_counterexample`). -/
theorem extract_local_images_dedup_amended (ctx : ImgCtx) (t : String) (l : List Char)
    (s0 : List ImageRef) :
    (∀ img ∈ (extract_local_images ctx t).2, img.name = "image_" ++ ctx.md5hex8 img.path) ∧
    ∃ tail, (runSub tryInlineImage (inlineImageHandler ctx) l s0).2 = s0 ++ tail ∧
      tail.Pairwise (fun a b => a.path ≠ b.path) ∧
      ∀ a ∈ tail, ∀ i ∈ s0, a.path ≠ i.path := by
  constructor
  · intro img him
    have hA := subScan_md_name_inv ctx t.data.length t.data [] (by simp)
    exact subScan_inline_name_inv ctx
      (runSub tryMdImage (mdImageHandler ctx) t.data []).1.length
      (runSub tryMdImage (mdImageHandler ctx) t.data []).1
      (runSub tryMdImage (mdImageHandler ctx) t.data []).2 hA img him
  · exact subScan_inline_dedup ctx l.length l s0

theorem extract_local_images_dedup_amended_witness :
    (∀ img ∈ (extract_local_images imgCtxC imgTextC).2,
      img.name = "image_" ++ imgCtxC.md5hex8 img.path) ∧
    ∃ tail, (runSub tryInlineImage (inlineImageHandler imgCtxC) "see `p.png` end".data []).2 =
        [] ++ tail ∧
      tail.Pairwise (fun a b => a.path ≠ b.path) ∧
      ∀ a ∈ tail, ∀ i ∈ ([] : List ImageRef), a.path ≠ i.path :=
  extract_local_images_dedup_amended imgCtxC imgTextC "see `p.png` end".data []

/-- **C2 (counterexample)**: with a file system containing `/d/p.png`, the
input `"![a](p.png) ![a](p.png)"` — two markdown image references to the
same resolved absolute path within one call — produces *two* `ImageRef`
records with identical paths: the markdown-image pass performs no dedup
check against the accumulated list, so "at most one ImageReference per
unique resolved absolute path per call" fails. -/
theorem extract_local_images_dup_counterexample :
    (extract_local_images imgCtxC imgTextC).2.length = 2 ∧
    (extract_local_images imgCtxC imgTextC).2.map (fun img => img.path) =
      ["/d/p.png", "/d/p.png"] ∧
    ¬ (extract_local_images imgCtxC imgTextC).2.Pairwise (fun a b => a.path ≠ b.path) :=
  ⟨by decide, by decide, by decide⟩

/-! ## Embedding orchestrator: equation lemmas -/

theorem processDiagramsGo_nil (caps : MermaidCaps) (f0 : Option String) :
    processDiagramsGo caps f0 [] = [] := rfl

theorem processDiagramsGo_cons (caps : MermaidCaps) (f0 : Option String) (d : DiagramRef)
    (rest : List DiagramRef) :
    processDiagramsGo caps f0 (d :: rest) =
      (processOneDiagram caps f0 d).1 ::
        processDiagramsGo caps (processOneDiagram caps f0 d).2 rest := rfl

theorem processImagesGo_nil (caps : ImagesCaps) (f0 : Option String) :
    processImagesGo caps f0 [] = [] := rfl

theorem processImagesGo_cons (caps : ImagesCaps) (f0 : Option String) (img : ImageRef)
    (rest : List ImageRef) :
    processImagesGo caps f0 (img :: rest) =
      (processOneImage caps f0 img).1 ::
        processImagesGo caps (processOneImage caps f0 img).2 rest := rfl

/-! ## Embedding orchestrator: every outcome carries its asset's name -/

theorem embedSubmit_name (bu : List DocRequest → Except String Unit) (nm url : String)
    (wpt hpt : Nat) (marker : MarkerLoc) :
    (embedSubmit bu nm url wpt hpt marker).assetName = nm := by
  unfold embedSubmit
  cases bu (embed_diagram_requests url marker.index marker.length wpt hpt) with
  | ok u => rfl
  | error e => rfl

theorem embedAtMarker_name (bu : List DocRequest → Except String Unit) (ms : List MarkerLoc)
    (nm url : String) (wpt hpt : Nat) :
    (embedAtMarker bu ms nm url wpt hpt).assetName = nm := by
  unfold embedAtMarker
  cases (ms.filter (fun m => m.name == nm)).head? with
  | none => rfl
  | some marker => exact embedSubmit_name bu nm url wpt hpt marker

theorem diagramOutcome_name (caps : MermaidCaps) (d : DiagramRef) (r : Except String String) :
    (diagramOutcome caps d r).assetName = d.name := by
  cases r with
  | error e => rfl
  | ok url =>
    exact embedAtMarker_name (caps.batchUpdate d.name)
      (find_diagram_markers (caps.fetchDoc d.name)) d.name url 500 350

theorem processOneDiagram_name (caps : MermaidCaps) (f0 : Option String) (d : DiagramRef) :
    (processOneDiagram caps f0 d).1.assetName = d.name :=
  diagramOutcome_name caps d (diagramResolveUrl caps f0 d).1

theorem imageOutcome_name (caps : ImagesCaps) (img : ImageRef) (r : Except String String) :
    (imageOutcome caps img r).assetName = img.name := by
  cases r with
  | error e => rfl
  | ok url =>
    exact embedAtMarker_name (caps.batchUpdate img.name)
      (find_image_markers (caps.fetchDoc img.name)) img.name url 280 175

theorem processOneImage_name (caps : ImagesCaps) (f0 : Option String) (img : ImageRef) :
    (processOneImage caps f0 img).1.assetName = img.name := by
  unfold processOneImage
  split
  · rfl
  · cases caps.readFile img.path with
    | error e => rfl
    | ok bytes => exact imageOutcome_name caps img (imageDriveUpload caps f0 img bytes).1

theorem processDiagramsGo_names (caps : MermaidCaps) (ds : List DiagramRef) :
    ∀ f0, (processDiagramsGo caps f0 ds).map AssetOutcome.assetName =
      ds.map DiagramRef.name := by
  induction ds with
  | nil =>
    intro f0
    rfl
  | cons d rest ih =>
    intro f0
    rw [processDiagramsGo_cons, List.map_cons, List.map_cons, processOneDiagram_name, ih]

theorem processImagesGo_names (caps : ImagesCaps) (imgs : List ImageRef) :
    ∀ f0, (processImagesGo caps f0 imgs).map AssetOutcome.assetName =
      imgs.map ImageRef.name := by
  induction imgs with
  | nil =>
    intro f0
    rfl
  | cons img rest ih =>
    intro f0
    rw [processImagesGo_cons, List.map_cons, List.map_cons, processOneImage_name, ih]

/-- **C8**: per-asset failure containment.  With the external collaborators
(render, folder creation, upload, document fetch, `batchUpdate`) modelled
as *arbitrary* oracles — each free to raise (`Except.error`) on any asset —
both `_process_mermaid_diagrams` and `_process_local_images` still produce
exactly one recorded outcome per input reference, in extraction order (the
outcome list maps under `assetName` to the input names): a render failure,
a store failure, a missing file, or a marker-not-found condition yields a
logged outcome (`failed` / `fileMissing` / `markerNotFound`) for that asset
and the loop continues; no failure propagates out of either pass, whose
result is always a total outcome list. -/
theorem process_asset_failures_contained (mc : MermaidCaps) (ds : List DiagramRef)
    (ic : ImagesCaps) (imgs : List ImageRef) :
    (process_mermaid_diagrams mc ds).map AssetOutcome.assetName = ds.map DiagramRef.name ∧
    (process_local_images ic imgs).map AssetOutcome.assetName = imgs.map ImageRef.name :=
  ⟨processDiagramsGo_names mc ds none, processImagesGo_names ic imgs none⟩

/-! ## Embedding orchestrator: batch shape of every embed -/

theorem embedSubmit_shape (bu : List DocRequest → Except String Unit) (nm url : String)
    (wpt hpt : Nat) (marker : MarkerLoc) (n : String) (m : MarkerLoc)
    (batch : List DocRequest)
    (h : embedSubmit bu nm url wpt hpt marker = AssetOutcome.embedded n m batch) :
    ∃ u, batch = [DocRequest.deleteContentRange m.index (m.index + m.length),
      DocRequest.insertInlineImage m.index u wpt hpt] := by
  unfold embedSubmit at h
  cases hb : bu (embed_diagram_requests url marker.index marker.length wpt hpt) with
  | ok u2 =>
    rw [hb] at h
    injection h with h1 h2 h3
    subst h2
    exact ⟨url, h3.symm⟩
  | error e =>
    rw [hb] at h
    cases h

theorem embedAtMarker_shape (bu : List DocRequest → Except String Unit) (ms : List MarkerLoc)
    (nm url : String) (wpt hpt : Nat) (n : String) (m : MarkerLoc) (batch : List DocRequest)
    (h : embedAtMarker bu ms nm url wpt hpt = AssetOutcome.embedded n m batch) :
    ∃ u, batch = [DocRequest.deleteContentRange m.index (m.index + m.length),
      DocRequest.insertInlineImage m.index u wpt hpt] := by
  unfold embedAtMarker at h
  cases hh : (ms.filter (fun x => x.name == nm)).head? with
  | none =>
    rw [hh] at h
    cases h
  | some marker =>
    rw [hh] at h
    exact embedSubmit_shape bu nm url wpt hpt marker n m batch h

theorem diagramOutcome_shape (caps : MermaidCaps) (d : DiagramRef) (r : Except String String)
    (n : String) (m : MarkerLoc) (batch : List DocRequest)
    (h : diagramOutcome caps d r = AssetOutcome.embedded n m batch) :
    ∃ u, batch = [DocRequest.deleteContentRange m.index (m.index + m.length),
      DocRequest.insertInlineImage m.index u 500 350] := by
  cases r with
  | error e => cases h
  | ok url =>
    exact embedAtMarker_shape (caps.batchUpdate d.name)
      (find_diagram_markers (caps.fetchDoc d.name)) d.name url 500 350 n m batch h

theorem imageOutcome_shape (caps : ImagesCaps) (img : ImageRef) (r : Except String String)
    (n : String) (m : MarkerLoc) (batch : List DocRequest)
    (h : imageOutcome caps img r = AssetOutcome.embedded n m batch) :
    ∃ u, batch = [DocRequest.deleteContentRange m.index (m.index + m.length),
      DocRequest.insertInlineImage m.index u 280 175] := by
  cases r with
  | error e => cases h
  | ok url =>
    exact embedAtMarker_shape (caps.batchUpdate img.name)
      (find_image_markers (caps.fetchDoc img.name)) img.name url 280 175 n m batch h

theorem processOneImage_shape (caps : ImagesCaps) (f0 : Option String) (img : ImageRef)
    (n : String) (m : MarkerLoc) (batch : List DocRequest)
    (h : (processOneImage caps f0 img).1 = AssetOutcome.embedded n m batch) :
    ∃ u, batch = [DocRequest.deleteContentRange m.index (m.index + m.length),
      DocRequest.insertInlineImage m.index u 280 175] := by
  unfold processOneImage at h
  split at h
  · cases h
  · cases hr : caps.readFile img.path with
    | error e =>
      rw [hr] at h
      cases h
    | ok bytes =>
      rw [hr] at h
      exact imageOutcome_shape caps img (imageDriveUpload caps f0 img bytes).1 n m batch h

theorem processDiagramsGo_shape (caps : MermaidCaps) (ds : List DiagramRef) :
    ∀ f0, ∀ o ∈ processDiagramsGo caps f0 ds, ∀ n m batch,
      o = AssetOutcome.embedded n m batch →
      ∃ u, batch = [DocRequest.deleteContentRange m.index (m.index + m.length),
        DocRequest.insertInlineImage m.index u 500 350] := by
  induction ds with
  | nil =>
    intro f0 o ho
    rw [processDiagramsGo_nil] at ho
    cases ho
  | cons d rest ih =>
    intro f0 o ho n m batch he
    rw [processDiagramsGo_cons] at ho
    rcases List.mem_cons.mp ho with h1 | h2
    · exact diagramOutcome_shape caps d (diagramResolveUrl caps f0 d).1 n m batch
        (h1.symm.trans he)
    · exact ih (processOneDiagram caps f0 d).2 o h2 n m batch he

theorem processImagesGo_shape (caps : ImagesCaps) (imgs : List ImageRef) :
    ∀ f0, ∀ o ∈ processImagesGo caps f0 imgs, ∀ n m batch,
      o = AssetOutcome.embedded n m batch →
      ∃ u, batch = [DocRequest.deleteContentRange m.index (m.index + m.length),
        DocRequest.insertInlineImage m.index u 280 175] := by
  induction imgs with
  | nil =>
    intro f0 o ho
    rw [processImagesGo_nil] at ho
    cases ho
  | cons img rest ih =>
    intro f0 o ho n m batch he
    rw [processImagesGo_cons] at ho
    rcases List.mem_cons.mp ho with h1 | h2
    · exact processOneImage_shape caps f0 img n m batch (h1.symm.trans he)
    · exact ih (processOneImage caps f0 img).2 o h2 n m batch he

/-- **C9**: for every asset the orchestrator records as embedded, the
single `batchUpdate` call it issued contained exactly two operations —
`deleteContentRange` of the marker's exact range
`[start_offset, start_offset + length)` followed by `insertInlineImage` at
`start_offset` — with display size 500×350 for diagrams and 280×175 for
images.  Holds for arbitrary external collaborators. -/
theorem embed_batch_shape (mc : MermaidCaps) (ds : List DiagramRef)
    (ic : ImagesCaps) (imgs : List ImageRef) :
    (∀ o ∈ process_mermaid_diagrams mc ds, ∀ n m batch,
        o = AssetOutcome.embedded n m batch →
        ∃ url, batch = [DocRequest.deleteContentRange m.index (m.index + m.length),
          DocRequest.insertInlineImage m.index url 500 350]) ∧
    (∀ o ∈ process_local_images ic imgs, ∀ n m batch,
        o = AssetOutcome.embedded n m batch →
        ∃ url, batch = [DocRequest.deleteContentRange m.index (m.index + m.length),
          DocRequest.insertInlineImage m.index url 280 175]) :=
  ⟨fun o ho n m batch he => processDiagramsGo_shape mc ds none o ho n m batch he,
   fun o ho n m batch he => processImagesGo_shape ic imgs none o ho n m batch he⟩

theorem embed_batch_shape_witness :
    (∃ url, embed_diagram_requests "https://drive.google.com/uc?export=view&id=FID"
        5 26 500 350 =
      [DocRequest.deleteContentRange 5 (5 + 26),
       DocRequest.insertInlineImage 5 url 500 350]) ∧
    (∃ url, embed_diagram_requests "https://drive.google.com/uc?export=view&id=FID2"
        7 22 280 175 =
      [DocRequest.deleteContentRange 7 (7 + 22),
       DocRequest.insertInlineImage 7 url 280 175]) :=
  ⟨(embed_batch_shape mermaidCapsW [diagramW] imagesCapsW [imageW]).1
      (AssetOutcome.embedded "mermaid_deadbeef" ⟨"mermaid_deadbeef", 5, 26⟩
        (embed_diagram_requests "https://drive.google.com/uc?export=view&id=FID" 5 26 500 350))
      (by decide) "mermaid_deadbeef" ⟨"mermaid_deadbeef", 5, 26⟩
      (embed_diagram_requests "https://drive.google.com/uc?export=view&id=FID" 5 26 500 350)
      rfl,
   (embed_batch_shape mermaidCapsW [diagramW] imagesCapsW [imageW]).2
      (AssetOutcome.embedded "image_deadbeef" ⟨"image_deadbeef", 7, 22⟩
        (embed_diagram_requests "https://drive.google.com/uc?export=view&id=FID2" 7 22 280 175))
      (by decide) "image_deadbeef" ⟨"image_deadbeef", 7, 22⟩
      (embed_diagram_requests "https://drive.google.com/uc?export=view&id=FID2" 7 22 280 175)
      rfl⟩

end DriveSync
